import Mathlib

/-!
# BTC tranche calculator (`src/App.js`)

A shallow embedding of the component `BTCTrancheCalculator`: its state hooks,
the recompute function `calculateTranche`, the input handlers and the document
built by `exportData`.

Numbers are JavaScript numbers, that is IEEE 754 binary64 values: a value is
`NaN`, a finite rational, or a signed infinity.  Every arithmetic result and
every parsed literal is rounded to the nearest binary64 value, ties to even,
overflowing to an infinity and underflowing through the subnormals to zero.
Zero carries no sign.
-/

namespace BTCTranche

/-! ## Numbers -/

/-- JavaScript number: `nan`, a finite value, or `inf neg` (`inf false` is
`Infinity`, `inf true` is `-Infinity`).  The finite values the program holds
are binary64 values, kept as rationals. -/
inductive JSNum where
  | nan : JSNum
  | fin : ℚ → JSNum
  | inf : Bool → JSNum
  deriving DecidableEq

/-! ## Rounding to binary64 -/

/-- Binary logarithm by repeated halving, `fuel` bounding the number of steps. -/
def lgAux : ℕ → ℕ → ℕ
  | 0, _ => 0
  | fuel + 1, n => if n < 2 then 0 else lgAux fuel (n / 2) + 1

/-- Floor of the binary logarithm of a positive natural number. -/
def lg (n : ℕ) : ℕ := lgAux n n

/-- Floor of the binary logarithm of `|q|`, for `q ≠ 0`: the binary exponent
of `q`. -/
def floorLog2 (q : ℚ) : ℤ :=
  if q.num.natAbs * 2 ^ lg q.den < q.den * 2 ^ lg q.num.natAbs then
    (lg q.num.natAbs : ℤ) - (lg q.den : ℤ) - 1
  else (lg q.num.natAbs : ℤ) - (lg q.den : ℤ)

/-- Nearest integer, ties to the even one. -/
def roundHalfEven (x : ℚ) : ℤ :=
  if x - ⌊x⌋ < 1 / 2 then ⌊x⌋
  else if 1 / 2 < x - ⌊x⌋ then ⌊x⌋ + 1
  else if ⌊x⌋ % 2 = 0 then ⌊x⌋ else ⌊x⌋ + 1

/-- Exponent of the spacing of binary64 values around `q`: 52 below the binary
exponent of `q`, and `-1074` throughout the subnormal range. -/
def quantumExp (q : ℚ) : ℤ := max (floorLog2 q) (-1022) - 52

/-- Spacing of binary64 values around `q`. -/
def quantum (q : ℚ) : ℚ := 2 ^ quantumExp q

/-- The magnitude `2 ^ 1024`, at which a rounded result overflows. -/
def overflowThreshold : ℚ := 2 ^ (1024 : ℤ)

/-- Round a real result to binary64, to nearest with ties to even: an
infinity when the rounded magnitude reaches `2 ^ 1024`. -/
def roundDouble (q : ℚ) : JSNum :=
  if q = 0 then JSNum.fin 0
  else if overflowThreshold ≤ (roundHalfEven (q / quantum q) : ℚ) * quantum q then
    JSNum.inf false
  else if (roundHalfEven (q / quantum q) : ℚ) * quantum q ≤ -overflowThreshold then
    JSNum.inf true
  else JSNum.fin ((roundHalfEven (q / quantum q) : ℚ) * quantum q)

namespace JSNum

/-- ToBoolean on a number: `NaN` and zero are falsy, everything else truthy. -/
def truthy : JSNum → Bool
  | nan => false
  | fin q => decide (q ≠ 0)
  | inf _ => true

/-- The comparison `x <= 0`; any comparison with `NaN` is false. -/
def le0 : JSNum → Bool
  | nan => false
  | fin q => decide (q ≤ 0)
  | inf neg => neg

/-- Multiplication `x * y`, the exact product rounded. -/
def mul : JSNum → JSNum → JSNum
  | nan, _ => nan
  | _, nan => nan
  | fin a, fin b => roundDouble (a * b)
  | fin a, inf s => if a = 0 then nan else inf (xor s (decide (a < 0)))
  | inf s, fin b => if b = 0 then nan else inf (xor s (decide (b < 0)))
  | inf s, inf t => inf (xor s t)

/-- Subtraction `x - y`, the exact difference rounded. -/
def sub : JSNum → JSNum → JSNum
  | nan, _ => nan
  | _, nan => nan
  | fin a, fin b => roundDouble (a - b)
  | fin _, inf s => inf (!s)
  | inf s, fin _ => inf s
  | inf s, inf t => if s = t then nan else inf s

/-- Division `x / y`, the exact quotient rounded; a zero divisor counts as `+0`. -/
def div : JSNum → JSNum → JSNum
  | nan, _ => nan
  | _, nan => nan
  | fin a, fin b =>
      if b = 0 then (if a = 0 then nan else inf (decide (a < 0))) else roundDouble (a / b)
  | fin _, inf _ => fin 0
  | inf s, fin b => inf (xor s (decide (b < 0)))
  | inf _, inf _ => nan

/-- The function `Math.ceil`; the ceiling of a binary64 value is one, so there
is nothing to round. -/
def ceil : JSNum → JSNum
  | nan => nan
  | fin a => fin (⌈a⌉ : ℤ)
  | inf s => inf s

instance : Mul JSNum := ⟨mul⟩
instance : Sub JSNum := ⟨sub⟩
instance : Div JSNum := ⟨div⟩

/-- The operator `x || y` on numbers. -/
def orElse (x y : JSNum) : JSNum := if x.truthy then x else y

/-- The predicate `Number.isFinite`. -/
def isFinite : JSNum → Bool
  | fin _ => true
  | _ => false

/-- Strictly positive: a positive finite value or `Infinity`. -/
def pos : JSNum → Prop
  | nan => False
  | fin q => 0 < q
  | inf neg => neg = false

instance : DecidablePred pos := fun x =>
  match x with
  | nan => isFalse (fun h => h)
  | fin q => inferInstanceAs (Decidable (0 < q))
  | inf neg => inferInstanceAs (Decidable (neg = false))

end JSNum

/-! ## `parseFloat` -/

/-- Characters removed by the leading trim of `parseFloat` (WhiteSpace and
LineTerminator code points). -/
def isStrWhiteSpaceChar (c : Char) : Bool :=
  c.toNat ∈ [0x9, 0xA, 0xB, 0xC, 0xD, 0x20, 0xA0, 0x1680, 0x2000, 0x2001, 0x2002,
    0x2003, 0x2004, 0x2005, 0x2006, 0x2007, 0x2008, 0x2009, 0x200A, 0x2028, 0x2029,
    0x202F, 0x205F, 0x3000, 0xFEFF]

/-- Drop leading white space. -/
def trimStart : List Char → List Char
  | [] => []
  | c :: cs => if isStrWhiteSpaceChar c then trimStart cs else c :: cs

/-- Longest run of decimal digits at the front, with the rest. -/
def spanDigits : List Char → List Nat × List Char
  | [] => ([], [])
  | c :: cs =>
      if c.isDigit then ((c.toNat - 48) :: (spanDigits cs).1, (spanDigits cs).2)
      else ([], c :: cs)

/-- Value of a digit string read in base ten. -/
def digitsValue (ds : List Nat) : Nat := ds.foldl (fun a d => 10 * a + d) 0

/-- ExponentPart at the front, if there is a complete one: `e` or `E`, an
optional sign, at least one digit.  Otherwise the exponent is `0`. -/
def parseExponent : List Char → ℤ
  | c :: cs =>
      if c = 'e' ∨ c = 'E' then
        match cs with
        | '+' :: r => if (spanDigits r).1 = [] then 0 else (digitsValue (spanDigits r).1 : ℤ)
        | '-' :: r => if (spanDigits r).1 = [] then 0 else -(digitsValue (spanDigits r).1 : ℤ)
        | r => if (spanDigits r).1 = [] then 0 else (digitsValue (spanDigits r).1 : ℤ)
      else 0
  | [] => 0

/-- Longest prefix that is a StrUnsignedDecimalLiteral, its decimal value
rounded to binary64; `nan` when there is none. -/
def parseUnsigned (cs : List Char) : JSNum :=
  if "Infinity".toList.isPrefixOf cs then JSNum.inf false
  else
    let ip := spanDigits cs
    let fp := match ip.2 with
      | '.' :: r => spanDigits r
      | r => ([], r)
    if ip.1 = [] ∧ fp.1 = [] then JSNum.nan
    else
      roundDouble (((digitsValue ip.1 : ℚ) + (digitsValue fp.1 : ℚ) / 10 ^ fp.1.length)
        * 10 ^ parseExponent fp.2)

/-- Negation of a number. -/
def JSNum.neg : JSNum → JSNum
  | JSNum.nan => JSNum.nan
  | JSNum.fin q => JSNum.fin (-q)
  | JSNum.inf s => JSNum.inf (!s)

/-- The global `parseFloat` applied to a string. -/
def parseFloat (s : String) : JSNum :=
  match trimStart s.toList with
  | '+' :: r => parseUnsigned r
  | '-' :: r => (parseUnsigned r).neg
  | r => parseUnsigned r

/-! ## Component state -/

/-- The record passed to `setResults`. -/
structure Results where
  size : JSNum
  marketValue : JSNum
  atlantisPays : JSNum
  sellerNetPayout : JSNum
  consultantCommission : JSNum
  atlantisSavings : JSNum
  pricePerBTC : JSNum
  transactionsNeeded : JSNum
  totalContractValue : JSNum
  totalAtlantisPays : JSNum
  totalSellerPayout : JSNum
  totalConsultantFees : JSNum
  totalAtlantisSavings : JSNum
  actualBuyerDiscount : JSNum
  actualConsultantPercent : JSNum
  sellerNetMargin : JSNum
  deriving DecidableEq

/-- The five `useState` cells of the component; `results = none` is `null`. -/
structure State where
  btcPrice : JSNum
  trancheSize : JSNum
  customTrancheSize : String
  totalTarget : JSNum
  results : Option Results
  deriving DecidableEq

/-- The initial values given to `useState`. -/
def initialState : State :=
  { btcPrice := JSNum.fin 117699
    trancheSize := JSNum.fin 4000
    customTrancheSize := ""
    totalTarget := JSNum.fin 60000
    results := none }

def TOTAL_DISCOUNT : JSNum := JSNum.fin 7.0
def NET_BUYER_DISCOUNT : JSNum := JSNum.fin 3.5
def SELLER_MARGIN : JSNum := JSNum.fin 2.0
def CONSULTANT_FEE : JSNum := JSNum.fin 1.5

/-! ## `calculateTranche` -/

/-- The local `size`: `customTrancheSize ? parseFloat(customTrancheSize) : trancheSize`.
A string is truthy exactly when it is not empty. -/
def effectiveSize (st : State) : JSNum :=
  if st.customTrancheSize ≠ "" then parseFloat st.customTrancheSize else st.trancheSize

/-- The guard `!size || size <= 0 || !btcPrice || btcPrice <= 0`. -/
def guardFails (st : State) : Bool :=
  !(effectiveSize st).truthy || (effectiveSize st).le0 || !st.btcPrice.truthy || st.btcPrice.le0

/-- The function `calculateTranche`: returns early with the state untouched when
the guard fails, and otherwise replaces `results` by a freshly computed record. -/
def calculateTranche (st : State) : State :=
  let size := effectiveSize st
  if guardFails st then st
  else
    let btcPrice := st.btcPrice
    let totalTarget := st.totalTarget
    let marketValue := size * btcPrice
    let priceAfterDiscount := btcPrice * (JSNum.fin 1 - NET_BUYER_DISCOUNT / JSNum.fin 100)
    let atlantisPays := size * priceAfterDiscount
    let consultantCommission := size * btcPrice * (CONSULTANT_FEE / JSNum.fin 100)
    let sellerGrossRevenue := size * btcPrice
    let sellerNetPayout := sellerGrossRevenue - consultantCommission
    let atlantisSavings := marketValue - atlantisPays
    let transactionsNeeded := JSNum.ceil (totalTarget / size)
    let totalContractValue := totalTarget * btcPrice
    let totalAtlantisPays := totalTarget * priceAfterDiscount
    let totalConsultantFees := totalTarget * btcPrice * (CONSULTANT_FEE / JSNum.fin 100)
    let totalSellerPayout := totalTarget * btcPrice - totalConsultantFees
    let totalAtlantisSavings := totalContractValue - totalAtlantisPays
    { st with
      results := some
        { size := size
          marketValue := marketValue
          atlantisPays := atlantisPays
          sellerNetPayout := sellerNetPayout
          consultantCommission := consultantCommission
          atlantisSavings := atlantisSavings
          pricePerBTC := priceAfterDiscount
          transactionsNeeded := transactionsNeeded
          totalContractValue := totalContractValue
          totalAtlantisPays := totalAtlantisPays
          totalSellerPayout := totalSellerPayout
          totalConsultantFees := totalConsultantFees
          totalAtlantisSavings := totalAtlantisSavings
          actualBuyerDiscount := (marketValue - atlantisPays) / marketValue * JSNum.fin 100
          actualConsultantPercent := consultantCommission / marketValue * JSNum.fin 100
          sellerNetMargin := (sellerNetPayout - atlantisPays) / atlantisPays * JSNum.fin 100 } }

/-! ## `exportData` -/

structure DealStructure where
  totalDiscount : JSNum
  netBuyerDiscount : JSNum
  sellerMargin : JSNum
  consultantFee : JSNum
  deriving DecidableEq

structure SingleTranche where
  marketValue : JSNum
  atlantisPays : JSNum
  sellerNetPayout : JSNum
  consultantCommission : JSNum
  atlantisSavings : JSNum
  deriving DecidableEq

structure FullContract where
  totalTarget : JSNum
  transactionsNeeded : JSNum
  totalContractValue : JSNum
  totalAtlantisPays : JSNum
  totalSellerPayout : JSNum
  totalConsultantFees : JSNum
  totalAtlantisSavings : JSNum
  deriving DecidableEq

/-- The object `data` serialised by `exportData`. -/
structure ExportDoc where
  calculationDate : String
  btcPrice : JSNum
  trancheSize : JSNum
  dealStructure : DealStructure
  singleTranche : SingleTranche
  fullContract : FullContract
  deriving DecidableEq

/-- The document `exportData` builds; `none` is the early return on
`!results`.  `now` stands for `new Date().toISOString()`. -/
def exportData (st : State) (now : String) : Option ExportDoc :=
  match st.results with
  | none => none
  | some results =>
      some
        { calculationDate := now
          btcPrice := st.btcPrice
          trancheSize := results.size
          dealStructure :=
            { totalDiscount := TOTAL_DISCOUNT
              netBuyerDiscount := NET_BUYER_DISCOUNT
              sellerMargin := SELLER_MARGIN
              consultantFee := CONSULTANT_FEE }
          singleTranche :=
            { marketValue := results.marketValue
              atlantisPays := results.atlantisPays
              sellerNetPayout := results.sellerNetPayout
              consultantCommission := results.consultantCommission
              atlantisSavings := results.atlantisSavings }
          fullContract :=
            { totalTarget := st.totalTarget
              transactionsNeeded := results.transactionsNeeded
              totalContractValue := results.totalContractValue
              totalAtlantisPays := results.totalAtlantisPays
              totalSellerPayout := results.totalSellerPayout
              totalConsultantFees := results.totalConsultantFees
              totalAtlantisSavings := results.totalAtlantisSavings } }

/-! ## Input handlers and the recompute effect -/

/-- The three `<option>` values of the standard-tranche select. -/
inductive Preset where
  | p4000 | p5000 | p6000
  deriving DecidableEq

/-- The number `parseInt(e.target.value)` for each option. -/
def Preset.value : Preset → JSNum
  | Preset.p4000 => JSNum.fin 4000
  | Preset.p5000 => JSNum.fin 5000
  | Preset.p6000 => JSNum.fin 6000

/-- One `onChange` event; the string is `e.target.value`. -/
inductive Edit where
  | btcPrice (value : String)
  | trancheSize (option : Preset)
  | customTrancheSize (value : String)
  | totalTarget (value : String)

/-- The state setters run by each `onChange` handler. -/
def applyEdit (st : State) : Edit → State
  | Edit.btcPrice value =>
      { st with btcPrice := (parseFloat value).orElse (JSNum.fin 0) }
  | Edit.trancheSize option =>
      { st with trancheSize := option.value, customTrancheSize := "" }
  | Edit.customTrancheSize value =>
      { st with customTrancheSize := value }
  | Edit.totalTarget value =>
      { st with totalTarget := (parseFloat value).orElse (JSNum.fin 0) }

/-- States the component passes through: the initial state, the effect running
`calculateTranche` (as on mount), and an input edit followed by the effect. -/
inductive Reachable : State → Prop where
  | init : Reachable initialState
  | effect {st : State} : Reachable st → Reachable (calculateTranche st)
  | edit {st : State} (e : Edit) : Reachable st → Reachable (calculateTranche (applyEdit st e))

/-! ## The computation as the specification words it -/

/-- The result record as the specification's formulas give it, every operation
being the binary64 one, for unit price `unitPrice`, effective tranche size
`size` and total target `totalTarget`, with `netBuyerDiscountPercent = 3.5`
and `consultantFeePercent = 1.5`. -/
def specResult (unitPrice size totalTarget : JSNum) : Results :=
  let effectivePrice := unitPrice * (JSNum.fin 1 - JSNum.fin 3.5 / JSNum.fin 100)
  let marketValue := size * unitPrice
  let buyerPays := size * effectivePrice
  let consultantCommission := size * unitPrice * (JSNum.fin 1.5 / JSNum.fin 100)
  let sellerNetPayout := marketValue - consultantCommission
  let buyerSavings := marketValue - buyerPays
  let totalContractValue := totalTarget * unitPrice
  let totalBuyerPays := totalTarget * effectivePrice
  let totalConsultantFees := totalTarget * unitPrice * (JSNum.fin 1.5 / JSNum.fin 100)
  { size := size
    marketValue := marketValue
    atlantisPays := buyerPays
    sellerNetPayout := sellerNetPayout
    consultantCommission := consultantCommission
    atlantisSavings := buyerSavings
    pricePerBTC := effectivePrice
    transactionsNeeded := JSNum.ceil (totalTarget / size)
    totalContractValue := totalContractValue
    totalAtlantisPays := totalBuyerPays
    totalSellerPayout := totalTarget * unitPrice - totalConsultantFees
    totalConsultantFees := totalConsultantFees
    totalAtlantisSavings := totalContractValue - totalBuyerPays
    actualBuyerDiscount := buyerSavings / marketValue * JSNum.fin 100
    actualConsultantPercent := consultantCommission / marketValue * JSNum.fin 100
    sellerNetMargin := (sellerNetPayout - buyerPays) / buyerPays * JSNum.fin 100 }

/-- The result record of the same formulas over exact rational arithmetic,
without any rounding. -/
def specResultExact (unitPrice size totalTarget : ℚ) : Results :=
  let effectivePrice := unitPrice * (1 - 3.5 / 100)
  let marketValue := size * unitPrice
  let buyerPays := size * effectivePrice
  let consultantCommission := size * unitPrice * (1.5 / 100)
  let sellerNetPayout := marketValue - consultantCommission
  let buyerSavings := marketValue - buyerPays
  let totalContractValue := totalTarget * unitPrice
  let totalBuyerPays := totalTarget * effectivePrice
  let totalConsultantFees := totalTarget * unitPrice * (1.5 / 100)
  { size := JSNum.fin size
    marketValue := JSNum.fin marketValue
    atlantisPays := JSNum.fin buyerPays
    sellerNetPayout := JSNum.fin sellerNetPayout
    consultantCommission := JSNum.fin consultantCommission
    atlantisSavings := JSNum.fin buyerSavings
    pricePerBTC := JSNum.fin effectivePrice
    transactionsNeeded := JSNum.fin (⌈totalTarget / size⌉ : ℤ)
    totalContractValue := JSNum.fin totalContractValue
    totalAtlantisPays := JSNum.fin totalBuyerPays
    totalSellerPayout := JSNum.fin (totalTarget * unitPrice - totalConsultantFees)
    totalConsultantFees := JSNum.fin totalConsultantFees
    totalAtlantisSavings := JSNum.fin (totalContractValue - totalBuyerPays)
    actualBuyerDiscount := JSNum.fin (buyerSavings / marketValue * 100)
    actualConsultantPercent := JSNum.fin (consultantCommission / marketValue * 100)
    sellerNetMargin := JSNum.fin ((sellerNetPayout - buyerPays) / buyerPays * 100) }

/-- The finite binary64 values: `N * 2 ^ j` with `|N| < 2 ^ 53` and
`-1074 ≤ j ≤ 971`. -/
def IsDouble (y : ℚ) : Prop :=
  ∃ N j : ℤ, |N| < 2 ^ 53 ∧ -1074 ≤ j ∧ j ≤ 971 ∧ y = (N : ℚ) * 2 ^ j

/-- The unit roundoff `2 ^ (-53)`, the largest relative error of rounding in the
normal range. -/
def unitRoundoff : ℚ := 1 / 2 ^ 53

/-- A non-negative number: a finite value `≥ 0` or `Infinity`. -/
def JSNum.nonneg : JSNum → Prop
  | JSNum.nan => False
  | JSNum.fin q => 0 ≤ q
  | JSNum.inf neg => neg = false

/-! ## States used as examples -/

/-- The state after a sequence of input edits from the initial state, the
effect running `calculateTranche` after each. -/
def runEdits (es : List Edit) : State :=
  es.foldl (fun st e => calculateTranche (applyEdit st e)) initialState

/-- The state reached from the initial one by typing `5000` into the custom
tranche field and then `0` into the price field, the effect running after each. -/
def staleState : State :=
  calculateTranche (applyEdit
    (calculateTranche (applyEdit initialState (Edit.customTrancheSize "5000")))
    (Edit.btcPrice "0"))

/-- The initial state with `abc` in the custom tranche field. -/
def unparsableState : State :=
  { initialState with customTrancheSize := "abc" }

/-- Custom tranche `0.1`, then total target `1.1`. -/
def tenthState : State :=
  runEdits [Edit.customTrancheSize "0.1", Edit.totalTarget "1.1"]

/-- Custom tranche `7`. -/
def sevenState : State :=
  runEdits [Edit.customTrancheSize "7"]

/-- Custom tranche `1e200`, then price `1e200`: the product overflows. -/
def overflowState : State :=
  runEdits [Edit.customTrancheSize "1e200", Edit.btcPrice "1e200"]

/-- Custom tranche `1e-200`, then price `1e-200`: the product underflows. -/
def underflowState : State :=
  runEdits [Edit.customTrancheSize "1e-200", Edit.btcPrice "1e-200"]

/-- Price `99999.99`, then total target `3`. -/
def scalingState : State :=
  runEdits [Edit.btcPrice "99999.99", Edit.totalTarget "3"]

/-! ## Properties of rounding -/

theorem lgAux_spec : ∀ (fuel n : ℕ), 1 ≤ n → n < 2 ^ fuel →
    2 ^ lgAux fuel n ≤ n ∧ n < 2 ^ (lgAux fuel n + 1)
  | 0, n, h1, h2 => by simp at h2; omega
  | fuel + 1, n, h1, h2 => by
      unfold lgAux
      by_cases hn : n < 2
      · have : n = 1 := by omega
        simp [this]
      · simp only [hn, if_false]
        have h3 : 1 ≤ n / 2 := by omega
        have h4 : n / 2 < 2 ^ fuel := by
          rw [pow_succ] at h2
          omega
        obtain ⟨ih1, ih2⟩ := lgAux_spec fuel (n / 2) h3 h4
        constructor
        · rw [pow_succ]; omega
        · rw [pow_succ]; omega

theorem lg_spec (n : ℕ) (h : 1 ≤ n) : 2 ^ lg n ≤ n ∧ n < 2 ^ (lg n + 1) :=
  lgAux_spec n n h (Nat.lt_two_pow n)

theorem floorLog2_neg (q : ℚ) : floorLog2 (-q) = floorLog2 q := by
  simp [floorLog2]

theorem floorLog2_spec (q : ℚ) (hq : 0 < q) :
    (2 : ℚ) ^ floorLog2 q ≤ q ∧ q < 2 ^ (floorLog2 q + 1) := by
  have hnum : 0 < q.num := Rat.num_pos.2 hq
  have hden : 0 < q.den := q.den_pos
  set a := q.num.natAbs with ha
  set b := q.den with hb
  have ha1 : 1 ≤ a := by
    have : q.num.natAbs ≠ 0 := Int.natAbs_ne_zero.2 hnum.ne'
    omega
  have hqa : q = (a : ℚ) / (b : ℚ) := by
    have h1 : ((a : ℤ) : ℚ) = (q.num : ℚ) := by
      rw [ha, Int.natAbs_of_nonneg hnum.le]
    have := (Rat.num_div_den q).symm
    rw [this]
    congr 1
    · exact_mod_cast h1.symm
  obtain ⟨la1, la2⟩ := lg_spec a ha1
  obtain ⟨lb1, lb2⟩ := lg_spec b hden
  have hbpos : (0 : ℚ) < b := by exact_mod_cast hden
  have la1' : (2 : ℚ) ^ (lg a) ≤ a := by exact_mod_cast la1
  have la2' : (a : ℚ) < 2 ^ (lg a + 1) := by exact_mod_cast la2
  have lb1' : (2 : ℚ) ^ (lg b) ≤ b := by exact_mod_cast lb1
  have lb2' : (b : ℚ) < 2 ^ (lg b + 1) := by exact_mod_cast lb2
  have h2 : (0 : ℚ) < 2 := by norm_num
  have e1 : (2 : ℚ) ^ ((lg a : ℤ) - (lg b : ℤ)) = 2 ^ (lg a) / 2 ^ (lg b) := by
    rw [zpow_sub₀ h2.ne', zpow_natCast, zpow_natCast]
  unfold floorLog2
  rw [← ha, ← hb]
  by_cases hc : a * 2 ^ lg b < b * 2 ^ lg a
  · simp only [hc, if_true]
    have hc' : (a : ℚ) * 2 ^ lg b < b * 2 ^ lg a := by exact_mod_cast hc
    constructor
    · rw [zpow_sub₀ h2.ne', e1, hqa, zpow_one, div_div, div_le_div_iff₀ (by positivity) hbpos]
      have : (2 : ℚ) ^ lg a * b ≤ a * (2 ^ lg b * 2) := by
        have := lb2'
        rw [pow_succ] at this
        nlinarith [la1', this]
      exact this
    · rw [sub_add_cancel, e1, hqa, div_lt_div_iff₀ hbpos (by positivity)]
      linarith
  · simp only [hc, if_false]
    have hc' : (b : ℚ) * 2 ^ lg a ≤ a * 2 ^ lg b := by exact_mod_cast not_lt.1 hc
    constructor
    · rw [e1, hqa, div_le_div_iff₀ (by positivity) hbpos]
      linarith
    · rw [zpow_add₀ h2.ne', e1, hqa, zpow_one, div_mul_eq_mul_div,
        div_lt_div_iff₀ hbpos (by positivity)]
      have : (a : ℚ) * 2 ^ lg b < 2 ^ lg a * 2 * b := by
        have := la2'
        rw [pow_succ] at this
        nlinarith [lb1', this]
      exact this

/-! ### Round half even -/

theorem roundHalfEven_intCast (z : ℤ) : roundHalfEven (z : ℚ) = z := by
  simp [roundHalfEven]

theorem roundHalfEven_bounds (x : ℚ) :
    x - 1 / 2 ≤ (roundHalfEven x : ℚ) ∧ (roundHalfEven x : ℚ) ≤ x + 1 / 2 := by
  have h1 : (⌊x⌋ : ℚ) ≤ x := Int.floor_le x
  have h2 : x < ⌊x⌋ + 1 := Int.lt_floor_add_one x
  unfold roundHalfEven
  split_ifs with c1 c2 c3
  · constructor <;> linarith
  · push_cast; constructor <;> linarith
  · have : x - ⌊x⌋ = 1 / 2 := le_antisymm (not_lt.1 c2) (not_lt.1 c1)
    constructor <;> linarith
  · have : x - ⌊x⌋ = 1 / 2 := le_antisymm (not_lt.1 c2) (not_lt.1 c1)
    push_cast; constructor <;> linarith

theorem roundHalfEven_le (x : ℚ) (c : ℤ) (h : x ≤ c) : roundHalfEven x ≤ c := by
  have hb := (roundHalfEven_bounds x).2
  have : (roundHalfEven x : ℚ) < (c : ℚ) + 1 := by linarith
  have : roundHalfEven x < c + 1 := by exact_mod_cast this
  omega

theorem le_roundHalfEven (x : ℚ) (c : ℤ) (h : (c : ℚ) ≤ x) : c ≤ roundHalfEven x := by
  have hb := (roundHalfEven_bounds x).1
  have : (c : ℚ) - 1 < (roundHalfEven x : ℚ) := by linarith
  have : c - 1 < roundHalfEven x := by exact_mod_cast this
  omega

/-! ### The quantum -/

theorem quantum_pos (q : ℚ) : 0 < quantum q := by
  unfold quantum
  positivity

theorem quantum_eq (q : ℚ) : quantum q = 2 ^ quantumExp q := rfl

theorem quantumExp_ge (q : ℚ) : -1074 ≤ quantumExp q := by
  unfold quantumExp
  have := le_max_right (floorLog2 q) (-1022)
  omega

theorem floorLog2_abs_spec (q : ℚ) (hq : q ≠ 0) :
    (2 : ℚ) ^ floorLog2 q ≤ |q| ∧ |q| < 2 ^ (floorLog2 q + 1) := by
  rcases lt_or_gt_of_ne hq with h | h
  · have := floorLog2_spec (-q) (by linarith)
    rw [floorLog2_neg] at this
    rwa [abs_of_neg h]
  · have := floorLog2_spec q h
    rwa [abs_of_pos h]

/-- The scaled magnitude is below `2 ^ 53`. -/
theorem abs_div_quantum_lt (q : ℚ) (hq : q ≠ 0) : |q / quantum q| < 2 ^ 53 := by
  have hs := (floorLog2_abs_spec q hq).2
  have hqp := quantum_pos q
  rw [abs_div, abs_of_pos hqp, div_lt_iff₀ hqp, quantum_eq]
  have h2 : (0 : ℚ) < 2 := by norm_num
  have : (2 : ℚ) ^ (53 : ℕ) * 2 ^ quantumExp q = 2 ^ (quantumExp q + 53) := by
    rw [zpow_add₀ h2.ne', mul_comm]
    norm_cast
  rw [this]
  refine lt_of_lt_of_le hs (zpow_le_zpow_right₀ (by norm_num) ?_)
  unfold quantumExp
  have := le_max_left (floorLog2 q) (-1022)
  omega

/-- In the normal range the scaled magnitude is at least `2 ^ 52`. -/
theorem le_abs_div_quantum (q : ℚ) (hq : q ≠ 0) (he : -1022 ≤ floorLog2 q) :
    2 ^ 52 ≤ |q / quantum q| := by
  have hs := (floorLog2_abs_spec q hq).1
  have hqp := quantum_pos q
  rw [abs_div, abs_of_pos hqp, le_div_iff₀ hqp, quantum_eq]
  have h2 : (0 : ℚ) < 2 := by norm_num
  have hk : quantumExp q = floorLog2 q - 52 := by
    unfold quantumExp
    rw [max_eq_left he]
  have : (2 : ℚ) ^ (52 : ℕ) * 2 ^ quantumExp q = 2 ^ floorLog2 q := by
    rw [hk, zpow_sub₀ h2.ne']
    have : (2 : ℚ) ^ (52 : ℤ) = 2 ^ (52 : ℕ) := by norm_cast
    rw [this]
    field_simp
  rw [this]
  exact hs

/-! ### Binary64 values -/

theorem overflowThreshold_eq_zpow : overflowThreshold = 2 ^ (1024 : ℤ) := rfl

theorem overflowThreshold_eq : overflowThreshold = 2 ^ (53 : ℕ) * 2 ^ (971 : ℤ) := by
  rw [overflowThreshold_eq_zpow, show (1024 : ℤ) = 53 + 971 by norm_num,
    zpow_add₀ (by norm_num : (2 : ℚ) ≠ 0), zpow_ofNat]

theorem overflowThreshold_pos : 0 < overflowThreshold := by
  rw [overflowThreshold_eq_zpow]
  exact zpow_pos (by norm_num) _

theorem isDouble_abs_lt {y : ℚ} (h : IsDouble y) : |y| < overflowThreshold := by
  obtain ⟨N, j, hN, hj1, hj2, rfl⟩ := h
  have h2 : (0 : ℚ) < 2 := by norm_num
  have hN' : |(N : ℚ)| < 2 ^ (53 : ℕ) := by exact_mod_cast hN
  rw [abs_mul, abs_of_pos (zpow_pos h2 j), overflowThreshold_eq]
  have h3 : (2 : ℚ) ^ j ≤ 2 ^ (971 : ℤ) := zpow_le_zpow_right₀ (by norm_num) hj2
  have h5 : (0 : ℚ) < 2 ^ (971 : ℤ) := zpow_pos h2 _
  calc |(N : ℚ)| * 2 ^ j ≤ |(N : ℚ)| * 2 ^ (971 : ℤ) :=
        mul_le_mul_of_nonneg_left h3 (abs_nonneg _)
    _ < 2 ^ (53 : ℕ) * 2 ^ (971 : ℤ) := mul_lt_mul_of_pos_right hN' h5

/-- A binary64 value rounds to itself. -/
theorem roundDouble_of_isDouble {y : ℚ} (h : IsDouble y) : roundDouble y = JSNum.fin y := by
  by_cases hy : y = 0
  · simp [roundDouble, hy]
  have hlt := isDouble_abs_lt h
  obtain ⟨N, j, hN, hj1, hj2, hyN⟩ := h
  have h2 : (0 : ℚ) < 2 := by norm_num
  have hN' : |(N : ℚ)| < 2 ^ 53 := by exact_mod_cast hN
  -- the quantum exponent is at most `j`
  have hk : quantumExp y ≤ j := by
    have hs := (floorLog2_abs_spec y hy).1
    have h1 : |y| < 2 ^ (j + 53) := by
      rw [hyN, abs_mul, abs_of_pos (zpow_pos h2 j), zpow_add₀ h2.ne', mul_comm]
      apply mul_lt_mul_of_pos_left _ (zpow_pos h2 j)
      exact_mod_cast hN'
    have h3 : (2 : ℚ) ^ floorLog2 y < 2 ^ (j + 53) := lt_of_le_of_lt hs h1
    have h4 : floorLog2 y < j + 53 := (zpow_lt_zpow_iff_right₀ (by norm_num)).1 h3
    unfold quantumExp
    have := max_le (show floorLog2 y ≤ j + 52 by omega) (show (-1022 : ℤ) ≤ j + 52 by omega)
    omega
  -- so `y / quantum y` is an integer
  obtain ⟨d, hd⟩ : ∃ d : ℕ, j = quantumExp y + d := ⟨(j - quantumExp y).toNat, by omega⟩
  have hdiv : y / quantum y = ((N * 2 ^ d : ℤ) : ℚ) := by
    rw [quantum_eq]
    generalize quantumExp y = k at hd
    have hk0 : (2 : ℚ) ^ k ≠ 0 := (zpow_pos h2 _).ne'
    rw [hyN, hd, zpow_add₀ h2.ne', zpow_natCast]
    field_simp
    ring
  have hr : (roundHalfEven (y / quantum y) : ℚ) * quantum y = y := by
    rw [hdiv, roundHalfEven_intCast, ← hdiv]
    exact div_mul_cancel₀ _ (quantum_pos y).ne'
  have hl := abs_lt.1 hlt
  unfold roundDouble
  rw [hr]
  simp only [hy, if_false]
  rw [if_neg (not_le.2 hl.2), if_neg (not_le.2 hl.1)]

/-- Every finite result of rounding is a binary64 value. -/
theorem isDouble_of_roundDouble {q y : ℚ} (h : roundDouble q = JSNum.fin y) : IsDouble y := by
  by_cases hq : q = 0
  · simp [roundDouble, hq] at h
    exact ⟨0, 0, by norm_num, by norm_num, by norm_num, by simp [← h]⟩
  unfold roundDouble at h
  simp only [hq, if_false] at h
  split_ifs at h with c1 c2
  have hy : y = (roundHalfEven (q / quantum q) : ℚ) * quantum q := by
    injection h with h
    exact h.symm
  have h2 : (0 : ℚ) < 2 := by norm_num
  set n := roundHalfEven (q / quantum q) with hn
  have hb := abs_lt.1 (abs_div_quantum_lt q hq)
  have hn1 : n ≤ 2 ^ 53 := roundHalfEven_le _ _ (by push_cast; linarith [hb.2])
  have hn2 : -(2 ^ 53) ≤ n := le_roundHalfEven _ _ (by push_cast; linarith [hb.1])
  have hkge := quantumExp_ge q
  have hylt : |y| < overflowThreshold :=
    abs_lt.2 ⟨by rw [hy]; exact not_le.1 c2, by rw [hy]; exact not_le.1 c1⟩
  by_cases hn0 : n = 0
  · exact ⟨0, 0, by norm_num, by norm_num, by norm_num, by simp [hy, hn0]⟩
  have hyabs : |y| = |(n : ℚ)| * 2 ^ quantumExp q := by
    rw [hy, abs_mul, abs_of_pos (quantum_pos q), quantum_eq]
  have hnabs1 : (1 : ℚ) ≤ |(n : ℚ)| := by
    have : (1 : ℤ) ≤ |n| := Int.one_le_abs hn0
    exact_mod_cast this
  -- exponent bound from the absence of overflow
  have hexp : ∀ m : ℕ, (2 : ℚ) ^ m ≤ |(n : ℚ)| → quantumExp q + m < 1024 := by
    intro m hm
    have h3 : (2 : ℚ) ^ (quantumExp q + m) ≤ |y| := by
      rw [hyabs, zpow_add₀ h2.ne', mul_comm, zpow_natCast]
      exact mul_le_mul_of_nonneg_right hm (zpow_pos h2 _).le
    have h4 : (2 : ℚ) ^ (quantumExp q + m) < 2 ^ (1024 : ℤ) := by
      rw [← overflowThreshold_eq_zpow]
      exact lt_of_le_of_lt h3 hylt
    exact (zpow_lt_zpow_iff_right₀ (by norm_num)).1 h4
  by_cases hbig : |n| = 2 ^ 53
  · -- rounded up to the next power of two: take mantissa `± 2 ^ 52`
    have h53 : (2 : ℚ) ^ (53 : ℕ) ≤ |(n : ℚ)| := by
      have : ((2 : ℤ) ^ 53 : ℤ) ≤ |n| := hbig.ge
      exact_mod_cast this
    have hk := hexp 53 h53
    refine ⟨n / 2, quantumExp q + 1, ?_, by omega, by omega, ?_⟩
    · rcases abs_eq (by norm_num : (0 : ℤ) ≤ 2 ^ 53) |>.1 hbig with h | h <;> rw [h] <;>
        norm_num
    · rw [hy, quantum_eq, zpow_add₀ h2.ne', zpow_one]
      have hdvd : (2 : ℤ) ∣ n := by
        rcases abs_eq (by norm_num : (0 : ℤ) ≤ 2 ^ 53) |>.1 hbig with h | h <;> rw [h] <;>
          norm_num
      obtain ⟨c, hc⟩ := hdvd
      rw [hc]
      have : (2 * c) / 2 = c := by omega
      rw [this]
      push_cast
      ring
  · have hnlt : |n| < 2 ^ 53 := by
      have : |n| ≤ 2 ^ 53 := abs_le.2 ⟨hn2, hn1⟩
      omega
    have hk : quantumExp q ≤ 971 := by
      by_cases he : -1022 ≤ floorLog2 q
      · have h52 := le_abs_div_quantum q hq he
        have hn52 : (2 : ℤ) ^ 52 ≤ |n| := by
          rcases le_or_lt 0 (q / quantum q) with hpos | hneg
          · rw [abs_of_nonneg hpos] at h52
            have := le_roundHalfEven (q / quantum q) (2 ^ 52) (by push_cast; exact h52)
            rw [← hn] at this
            exact le_trans this (le_abs_self n)
          · rw [abs_of_neg hneg] at h52
            have := roundHalfEven_le (q / quantum q) (-(2 ^ 52)) (by push_cast; linarith)
            rw [← hn] at this
            have h' : (2 : ℤ) ^ 52 ≤ -n := by omega
            exact le_trans h' (neg_le_abs n)
        have h52' : (2 : ℚ) ^ (52 : ℕ) ≤ |(n : ℚ)| := by exact_mod_cast hn52
        have := hexp 52 h52'
        omega
      · unfold quantumExp
        rw [max_eq_right (by omega)]
        norm_num
    exact ⟨n, quantumExp q, hnlt, hkge, hk, by rw [hy, quantum_eq]⟩


/-- The three outcomes of rounding a non-zero value. -/
theorem roundDouble_cases (q : ℚ) (hq : q ≠ 0) :
    (overflowThreshold ≤ (roundHalfEven (q / quantum q) : ℚ) * quantum q ∧
      roundDouble q = JSNum.inf false) ∨
    ((roundHalfEven (q / quantum q) : ℚ) * quantum q ≤ -overflowThreshold ∧
      roundDouble q = JSNum.inf true) ∨
    (roundDouble q = JSNum.fin ((roundHalfEven (q / quantum q) : ℚ) * quantum q)) := by
  by_cases c1 : overflowThreshold ≤ (roundHalfEven (q / quantum q) : ℚ) * quantum q
  · left
    exact ⟨c1, by rw [roundDouble, if_neg hq, if_pos c1]⟩
  · by_cases c2 : (roundHalfEven (q / quantum q) : ℚ) * quantum q ≤ -overflowThreshold
    · right; left
      exact ⟨c2, by rw [roundDouble, if_neg hq, if_neg c1, if_pos c2]⟩
    · right; right
      rw [roundDouble, if_neg hq, if_neg c1, if_neg c2]

/-- Rounding a non-negative value gives a non-negative number. -/
theorem roundDouble_nonneg {q : ℚ} (hq : 0 ≤ q) : (roundDouble q).nonneg := by
  by_cases h0 : q = 0
  · simp [roundDouble, h0, JSNum.nonneg]
  have hn : (0 : ℤ) ≤ roundHalfEven (q / quantum q) :=
    le_roundHalfEven _ 0 (by push_cast; exact div_nonneg hq (quantum_pos q).le)
  have hr : (0 : ℚ) ≤ (roundHalfEven (q / quantum q) : ℚ) * quantum q :=
    mul_nonneg (by exact_mod_cast hn) (quantum_pos q).le
  have hneg : -overflowThreshold < 0 := neg_neg_of_pos overflowThreshold_pos
  rcases roundDouble_cases q h0 with ⟨_, h⟩ | ⟨c2, _⟩ | h
  · rw [h]; rfl
  · exact absurd (lt_of_le_of_lt c2 hneg) (not_lt.2 hr)
  · rw [h]; exact hr

/-- A value above `2 ^ (-1075)`, half the least positive binary64 value, rounds
to a strictly positive number. -/
theorem roundDouble_pos {q : ℚ} (hq : (2 : ℚ) ^ (-1075 : ℤ) < q) : (roundDouble q).pos := by
  have h2 : (0 : ℚ) < 2 := by norm_num
  have hq0 : 0 < q := lt_trans (zpow_pos h2 _) hq
  have hn : (1 : ℤ) ≤ roundHalfEven (q / quantum q) := by
    by_cases he : -1022 ≤ floorLog2 q
    · have := le_abs_div_quantum q hq0.ne' he
      rw [abs_of_pos (div_pos hq0 (quantum_pos q))] at this
      refine le_roundHalfEven _ 1 ?_
      push_cast
      exact le_trans (one_le_pow₀ (by norm_num)) this
    · have hk : quantumExp q = -1074 := by
        unfold quantumExp
        rw [max_eq_right (by omega)]
        norm_num
      have hx : 1 / 2 < q / quantum q := by
        rw [lt_div_iff₀ (quantum_pos q), quantum, hk]
        have e : (1 / 2 : ℚ) * 2 ^ (-1074 : ℤ) = 2 ^ (-1075 : ℤ) := by
          rw [show (-1075 : ℤ) = -1074 + -1 by norm_num, zpow_add₀ h2.ne', zpow_neg_one]
          ring
        rw [e]
        exact hq
      have hb := (roundHalfEven_bounds (q / quantum q)).1
      have : (0 : ℚ) < (roundHalfEven (q / quantum q) : ℚ) := by linarith
      have : (0 : ℤ) < roundHalfEven (q / quantum q) := by exact_mod_cast this
      omega
  have hr : (0 : ℚ) < (roundHalfEven (q / quantum q) : ℚ) * quantum q :=
    mul_pos (by exact_mod_cast hn) (quantum_pos q)
  have hneg : -overflowThreshold < 0 := neg_neg_of_pos overflowThreshold_pos
  rcases roundDouble_cases q hq0.ne' with ⟨_, h⟩ | ⟨c2, _⟩ | h
  · rw [h]; rfl
  · exact absurd (lt_of_le_of_lt c2 hneg) (not_lt.2 hr.le)
  · rw [h]; exact hr

/-- A positive binary64 value is at least `2 ^ (-1074)`. -/
theorem isDouble_pos_ge {p : ℚ} (h : IsDouble p) (hp : 0 < p) :
    (2 : ℚ) ^ (-1074 : ℤ) ≤ p := by
  obtain ⟨N, j, _, hj1, _, rfl⟩ := h
  have h2 : (0 : ℚ) < 2 := by norm_num
  have hN : (1 : ℚ) ≤ (N : ℚ) := by
    have := pos_of_mul_pos_left hp (zpow_pos h2 j).le
    have : (0 : ℤ) < N := by exact_mod_cast this
    exact_mod_cast this
  calc (2 : ℚ) ^ (-1074 : ℤ) ≤ 2 ^ j := zpow_le_zpow_right₀ (by norm_num) hj1
    _ = 1 * 2 ^ j := (one_mul _).symm
    _ ≤ (N : ℚ) * 2 ^ j := mul_le_mul_of_nonneg_right hN (zpow_pos h2 j).le

/-- Whole numbers of magnitude below `2 ^ 53` are binary64 values. -/
theorem isDouble_intCast (k : ℤ) (hk : |k| < 2 ^ 53) : IsDouble (k : ℚ) :=
  ⟨k, 0, hk, by norm_num, by norm_num, by simp⟩

/-! ## Rounding error in the normal range -/

/-- In the normal range rounding is finite with relative error at most
`2 ^ (-53)`. -/
theorem roundDouble_normal {x : ℚ} (h1 : (2 : ℚ) ^ (-1022 : ℤ) ≤ x)
    (h2 : x ≤ 2 ^ (1023 : ℤ)) :
    ∃ y : ℚ, roundDouble x = JSNum.fin y ∧ x * (1 - unitRoundoff) ≤ y ∧
      y ≤ x * (1 + unitRoundoff) := by
  have h20 : (0 : ℚ) < 2 := by norm_num
  have hx0 : 0 < x := lt_of_lt_of_le (zpow_pos h20 _) h1
  obtain ⟨hs1, hs2⟩ := floorLog2_spec x hx0
  have he : -1022 ≤ floorLog2 x := by
    have : (2 : ℚ) ^ (-1022 : ℤ) < 2 ^ (floorLog2 x + 1) := lt_of_le_of_lt h1 hs2
    have := (zpow_lt_zpow_iff_right₀ (by norm_num : (1 : ℚ) < 2)).1 this
    omega
  have hk : quantumExp x = floorLog2 x - 52 := by
    unfold quantumExp
    rw [max_eq_left he]
  have hqp := quantum_pos x
  -- the quantum is at most `x * 2 ^ (-52)`
  have hq : quantum x ≤ x * (2 * unitRoundoff) := by
    have e1 : quantum x = 2 ^ floorLog2 x * (2 * unitRoundoff) := by
      rw [quantum, hk, zpow_sub₀ h20.ne', unitRoundoff]
      have : (2 : ℚ) ^ (52 : ℤ) = 2 ^ (52 : ℕ) := zpow_ofNat 2 52
      rw [this]
      field_simp
      ring
    rw [e1]
    exact mul_le_mul_of_nonneg_right hs1 (by unfold unitRoundoff; positivity)
  have hb := roundHalfEven_bounds (x / quantum x)
  set r := (roundHalfEven (x / quantum x) : ℚ) * quantum x with hr
  have hr1 : x - quantum x / 2 ≤ r := by
    have := mul_le_mul_of_nonneg_right hb.1 hqp.le
    rw [sub_mul, div_mul_cancel₀ _ hqp.ne'] at this
    linarith
  have hr2 : r ≤ x + quantum x / 2 := by
    have := mul_le_mul_of_nonneg_right hb.2 hqp.le
    rw [add_mul, div_mul_cancel₀ _ hqp.ne'] at this
    linarith
  have hlo : x * (1 - unitRoundoff) ≤ r := by linarith
  have hhi : r ≤ x * (1 + unitRoundoff) := by linarith
  have hu : unitRoundoff < 1 := by unfold unitRoundoff; norm_num
  have hlt : r < overflowThreshold := by
    rw [overflowThreshold_eq_zpow]
    have e2 : (2 : ℚ) ^ (1024 : ℤ) = 2 ^ (1023 : ℤ) * 2 := by
      rw [show (1024 : ℤ) = 1023 + 1 by norm_num, zpow_add₀ h20.ne', zpow_one]
    rw [e2]
    calc r ≤ x * (1 + unitRoundoff) := hhi
      _ < x * 2 := by apply mul_lt_mul_of_pos_left _ hx0; linarith
      _ ≤ 2 ^ (1023 : ℤ) * 2 := mul_le_mul_of_nonneg_right h2 (by norm_num)
  have hr0 : 0 ≤ r := le_trans (mul_nonneg hx0.le (by linarith)) hlo
  rcases roundDouble_cases x hx0.ne' with ⟨c1, _⟩ | ⟨c2, _⟩ | h
  · exact absurd hlt (not_lt.2 c1)
  · exact absurd (lt_of_le_of_lt c2 (neg_neg_of_pos overflowThreshold_pos)) (not_lt.2 hr0)
  · exact ⟨r, h, hlo, hhi⟩

theorem two_zpow_neg_le_one : (2 : ℚ) ^ (-1000 : ℤ) ≤ 1 := by
  have : (2 : ℚ) ^ (-1000 : ℤ) ≤ 2 ^ (0 : ℤ) :=
    zpow_le_zpow_right₀ (by norm_num) (by norm_num)
  simpa using this

theorem one_le_two_zpow : (1 : ℚ) ≤ 2 ^ (1000 : ℤ) := by
  have : (2 : ℚ) ^ (0 : ℤ) ≤ 2 ^ (1000 : ℤ) :=
    zpow_le_zpow_right₀ (by norm_num) (by norm_num)
  simpa using this

/-- Rounding a value known up to constant factors of a scale `M` that is far
from overflow and underflow. -/
theorem round_scaled (M x α β α' β' : ℚ) (hM0 : 0 < M) (hM1 : (2 : ℚ) ^ (-1000 : ℤ) ≤ M)
    (hM2 : M ≤ 2 ^ (1000 : ℤ)) (hα : 1 / 2 ^ 20 ≤ α) (hβ : β ≤ 2 ^ 20)
    (h1 : α * M ≤ x) (h2 : x ≤ β * M) (hα' : α' ≤ α * (1 - unitRoundoff))
    (hβ' : β * (1 + unitRoundoff) ≤ β') :
    ∃ y : ℚ, roundDouble x = JSNum.fin y ∧ α' * M ≤ y ∧ y ≤ β' * M := by
  have h20 : (0 : ℚ) < 2 := by norm_num
  have hα0 : 0 < α := lt_of_lt_of_le (by norm_num) hα
  have hlo : (2 : ℚ) ^ (-1022 : ℤ) ≤ x := by
    have e : (2 : ℚ) ^ (-1022 : ℤ) = 2 ^ (-22 : ℤ) * 2 ^ (-1000 : ℤ) := by
      rw [← zpow_add₀ h20.ne']
      norm_num
    have h22 : (2 : ℚ) ^ (-22 : ℤ) ≤ α := le_trans (by norm_num) hα
    rw [e]
    exact le_trans (mul_le_mul h22 hM1 (zpow_pos h20 _).le hα0.le) h1
  have hhi : x ≤ 2 ^ (1023 : ℤ) := by
    have e : (2 : ℚ) ^ (1023 : ℤ) = 2 ^ (23 : ℤ) * 2 ^ (1000 : ℤ) := by
      rw [← zpow_add₀ h20.ne']
      norm_num
    have h23 : β ≤ (2 : ℚ) ^ (23 : ℤ) := le_trans hβ (by norm_num)
    have hβ0 : 0 ≤ β := by
      have : 0 < β * M := lt_of_lt_of_le (lt_of_lt_of_le (mul_pos hα0 hM0) h1) h2
      exact le_of_lt (pos_of_mul_pos_left this hM0.le)
    rw [e]
    exact le_trans h2 (mul_le_mul h23 hM2 hM0.le (zpow_pos h20 _).le)
  obtain ⟨y, hy, hy1, hy2⟩ := roundDouble_normal hlo hhi
  have hu0 : 0 < unitRoundoff := by unfold unitRoundoff; positivity
  have hu1 : unitRoundoff < 1 := by unfold unitRoundoff; norm_num
  refine ⟨y, hy, ?_, ?_⟩
  · calc α' * M ≤ α * (1 - unitRoundoff) * M := mul_le_mul_of_nonneg_right hα' hM0.le
      _ = α * M * (1 - unitRoundoff) := by ring
      _ ≤ x * (1 - unitRoundoff) := mul_le_mul_of_nonneg_right h1 (by linarith)
      _ ≤ y := hy1
  · calc y ≤ x * (1 + unitRoundoff) := hy2
      _ ≤ β * M * (1 + unitRoundoff) := mul_le_mul_of_nonneg_right h2 (by linarith)
      _ = β * (1 + unitRoundoff) * M := by ring
      _ ≤ β' * M := mul_le_mul_of_nonneg_right hβ' hM0.le

/-- Bounds for a quotient of two values known up to constant factors of the
same scale. -/
theorem div_scaled (x y M α β γ δ A B : ℚ) (hM : 0 < M) (hγ : 0 < γ)
    (hx1 : α * M ≤ x) (hx2 : x ≤ β * M) (hy1 : γ * M ≤ y) (hy2 : y ≤ δ * M)
    (hA0 : 0 ≤ A) (hB0 : 0 ≤ B) (hA : A * δ ≤ α) (hB : β ≤ B * γ) :
    A * 1 ≤ x / y ∧ x / y ≤ B * 1 := by
  have hy0 : 0 < y := lt_of_lt_of_le (mul_pos hγ hM) hy1
  rw [mul_one, mul_one, le_div_iff₀ hy0, div_le_iff₀ hy0]
  constructor
  · calc A * y ≤ A * (δ * M) := mul_le_mul_of_nonneg_left hy2 hA0
      _ = A * δ * M := by ring
      _ ≤ α * M := mul_le_mul_of_nonneg_right hA hM.le
      _ ≤ x := hx1
  · calc x ≤ β * M := hx2
      _ ≤ B * γ * M := mul_le_mul_of_nonneg_right hB hM.le
      _ = B * (γ * M) := by ring
      _ ≤ B * y := mul_le_mul_of_nonneg_left hy1 hB0

/-- The difference of two positive binary64 values within a factor two of
each other is a binary64 value, so their subtraction is exact. -/
theorem isDouble_sub {a m : ℚ} (ha : IsDouble a) (hm : IsDouble m) (ha0 : 0 < a)
    (h1 : a ≤ m) (h2 : m ≤ 2 * a) : IsDouble (m - a) := by
  obtain ⟨Na, ja, hNa, hja1, hja2, hae⟩ := ha
  obtain ⟨Nm, jm, hNm, hjm1, hjm2, hme⟩ := hm
  have h20 : (0 : ℚ) < 2 := by norm_num
  have hNa0 : 0 < Na := by
    have : (0 : ℚ) < (Na : ℚ) * 2 ^ ja := hae ▸ ha0
    have := pos_of_mul_pos_left this (zpow_pos h20 ja).le
    exact_mod_cast this
  have hNm0 : 0 < Nm := by
    have : (0 : ℚ) < (Nm : ℚ) * 2 ^ jm := hme ▸ lt_of_lt_of_le ha0 h1
    have := pos_of_mul_pos_left this (zpow_pos h20 jm).le
    exact_mod_cast this
  rcases le_or_lt ja jm with hj | hj
  · obtain ⟨d, hd⟩ : ∃ d : ℕ, jm = ja + d := ⟨(jm - ja).toNat, by omega⟩
    have hm' : m = ((Nm * 2 ^ d : ℤ) : ℚ) * 2 ^ ja := by
      rw [hme, hd, zpow_add₀ h20.ne', zpow_natCast]
      push_cast
      ring
    have hdiff : m - a = ((Nm * 2 ^ d - Na : ℤ) : ℚ) * 2 ^ ja := by
      rw [hm', hae]
      push_cast
      ring
    have hD0 : (0 : ℤ) ≤ Nm * 2 ^ d - Na := by
      have : (0 : ℚ) ≤ ((Nm * 2 ^ d - Na : ℤ) : ℚ) * 2 ^ ja := by rw [← hdiff]; linarith
      have := nonneg_of_mul_nonneg_left this (zpow_pos h20 ja)
      exact_mod_cast this
    have hD1 : Nm * 2 ^ d - Na ≤ Na := by
      have : ((Nm * 2 ^ d - Na : ℤ) : ℚ) * 2 ^ ja ≤ (Na : ℚ) * 2 ^ ja := by
        rw [← hdiff, ← hae]; linarith
      have := le_of_mul_le_mul_right this (zpow_pos h20 ja)
      exact_mod_cast this
    refine ⟨Nm * 2 ^ d - Na, ja, ?_, hja1, hja2, hdiff⟩
    rw [abs_of_nonneg hD0]
    have := abs_lt.1 hNa
    omega
  · obtain ⟨d, hd⟩ : ∃ d : ℕ, ja = jm + d := ⟨(ja - jm).toNat, by omega⟩
    have ha' : a = ((Na * 2 ^ d : ℤ) : ℚ) * 2 ^ jm := by
      rw [hae, hd, zpow_add₀ h20.ne', zpow_natCast]
      push_cast
      ring
    have hdiff : m - a = ((Nm - Na * 2 ^ d : ℤ) : ℚ) * 2 ^ jm := by
      rw [ha', hme]
      push_cast
      ring
    have hD0 : (0 : ℤ) ≤ Nm - Na * 2 ^ d := by
      have : (0 : ℚ) ≤ ((Nm - Na * 2 ^ d : ℤ) : ℚ) * 2 ^ jm := by rw [← hdiff]; linarith
      have := nonneg_of_mul_nonneg_left this (zpow_pos h20 jm)
      exact_mod_cast this
    have hD1 : Nm - Na * 2 ^ d ≤ Nm := by
      have : (0 : ℤ) ≤ Na * 2 ^ d := by positivity
      omega
    refine ⟨Nm - Na * 2 ^ d, jm, ?_, hjm1, hjm2, hdiff⟩
    rw [abs_of_nonneg hD0]
    have := abs_lt.1 hNm
    omega

/-! ## Arithmetic on finite values -/

open JSNum

theorem JSNum.fin_mul_fin (a b : ℚ) : fin a * fin b = roundDouble (a * b) := rfl

theorem JSNum.fin_sub_fin (a b : ℚ) : fin a - fin b = roundDouble (a - b) := rfl

theorem JSNum.fin_div_fin (a b : ℚ) (hb : b ≠ 0) : fin a / fin b = roundDouble (a / b) := by
  show JSNum.div (fin a) (fin b) = _
  simp [JSNum.div, hb]

theorem JSNum.ceil_fin (a : ℚ) : JSNum.ceil (fin a) = fin (⌈a⌉ : ℤ) := rfl

theorem JSNum.pos_iff (x : JSNum) : x.pos ↔ (x.truthy = true ∧ x.le0 = false) := by
  cases x with
  | nan => simp [JSNum.pos, JSNum.truthy]
  | fin q =>
      simp only [JSNum.pos, JSNum.truthy, JSNum.le0, decide_eq_true_eq, decide_eq_false_iff_not,
        not_le]
      exact ⟨fun h => ⟨h.ne', h⟩, fun h => h.2⟩
  | inf s => simp [JSNum.pos, JSNum.truthy, JSNum.le0]

/-- The product of two strictly positive numbers is a non-negative number. -/
theorem JSNum.mul_nonneg_of_pos {x y : JSNum} (hx : x.pos) (hy : y.pos) : (x * y).nonneg := by
  show (JSNum.mul x y).nonneg
  cases x with
  | nan => exact hx.elim
  | fin a =>
      cases y with
      | nan => exact hy.elim
      | fin b =>
          have ha : (0 : ℚ) < a := hx
          have hb : (0 : ℚ) < b := hy
          exact roundDouble_nonneg (mul_pos ha hb).le
      | inf t =>
          have ha : (0 : ℚ) < a := hx
          have ht : t = false := hy
          simp [JSNum.mul, JSNum.nonneg, ha.ne', ht, not_lt.mpr ha.le]
  | inf s =>
      have hs : s = false := hx
      cases y with
      | nan => exact hy.elim
      | fin b =>
          have hb : (0 : ℚ) < b := hy
          simp [JSNum.mul, JSNum.nonneg, hb.ne', hs, not_lt.mpr hb.le]
      | inf t =>
          have ht : t = false := hy
          simp [JSNum.mul, JSNum.nonneg, hs, ht]

/-- The constant `1 - NET_BUYER_DISCOUNT / 100` as computed. -/
theorem discountFactor_eq :
    fin 1 - NET_BUYER_DISCOUNT / fin 100 = fin (8691947280825057 / 9007199254740992) := by
  decide!

/-- The constant `CONSULTANT_FEE / 100` as computed. -/
theorem feeFactor_eq :
    CONSULTANT_FEE / fin 100 = fin (1080863910568919 / 72057594037927936) := by
  decide!

/-! ## The guard -/

theorem guardFails_eq_false_iff (st : State) :
    guardFails st = false ↔ ((effectiveSize st).pos ∧ st.btcPrice.pos) := by
  rw [JSNum.pos_iff, JSNum.pos_iff]
  simp only [guardFails, Bool.or_eq_false_iff, Bool.not_eq_false_eq_eq_true, Bool.not_eq_eq_eq_not,
    Bool.not_false]
  tauto

theorem guardFails_fin (st : State) (p s : ℚ) (hp : st.btcPrice = fin p)
    (hs : effectiveSize st = fin s) (hpp : 0 < p) (hss : 0 < s) : guardFails st = false := by
  rw [guardFails_eq_false_iff, hp, hs]
  exact ⟨hss, hpp⟩

theorem effectiveSize_initialState : effectiveSize initialState = fin 4000 := by
  simp [effectiveSize, initialState]

theorem parseFloat_abc : parseFloat "abc" = nan := by decide

/-- Past the guard, `calculateTranche` stores the record of the specification's
formulas, computed in binary64. -/
theorem calculateTranche_eq_specResult (st : State) (hg : guardFails st = false) :
    calculateTranche st =
      { st with results := some (specResult st.btcPrice (effectiveSize st) st.totalTarget) } := by
  simp only [calculateTranche, hg]
  rfl

theorem calculateTranche_inputs (st : State) :
    (calculateTranche st).btcPrice = st.btcPrice ∧
    (calculateTranche st).trancheSize = st.trancheSize ∧
    (calculateTranche st).customTrancheSize = st.customTrancheSize ∧
    (calculateTranche st).totalTarget = st.totalTarget := by
  unfold calculateTranche
  cases guardFails st <;> simp

theorem guardFails_calculateTranche (st : State) :
    guardFails (calculateTranche st) = guardFails st := by
  obtain ⟨h1, h2, h3, h4⟩ := calculateTranche_inputs st
  simp only [guardFails, effectiveSize, h1, h2, h3]

/-- After the effect has run on inputs that pass the guard, the held record is
the one computed from the inputs now in the state. -/
theorem calculateTranche_fresh (st : State) (hg : guardFails (calculateTranche st) = false) :
    ∃ r : Results, (calculateTranche st).results = some r ∧
      r.size = effectiveSize (calculateTranche st) ∧
      r.marketValue = r.size * (calculateTranche st).btcPrice ∧
      r.totalContractValue
        = (calculateTranche st).totalTarget * (calculateTranche st).btcPrice := by
  rw [guardFails_calculateTranche] at hg
  obtain ⟨h1, h2, h3, h4⟩ := calculateTranche_inputs st
  have he : effectiveSize (calculateTranche st) = effectiveSize st := by
    simp only [effectiveSize, h2, h3]
  rw [he, h1, h4]
  simp only [calculateTranche, hg]
  exact ⟨_, rfl, rfl, rfl, rfl⟩

/-! ## Evaluations -/

/-- The record stored on the initial inputs. -/
theorem initialResults_eq :
    (calculateTranche initialState).results = some
      { size := fin 4000
        marketValue := fin 470796000
        atlantisPays := fin 454318140
        sellerNetPayout := fin 463734060
        consultantCommission := fin 7061940
        atlantisSavings := fin 16477860
        pricePerBTC := fin (3902563106559099 / 34359738368)
        transactionsNeeded := fin 15
        totalContractValue := fin 7061940000
        totalAtlantisPays := fin 6814772100
        totalSellerPayout := fin 6956010900
        totalConsultantFees := fin 105929100
        totalAtlantisSavings := fin 247167900
        actualBuyerDiscount := fin (7881299347898369 / 2251799813685248)
        actualConsultantPercent := fin (3 / 2)
        sellerNetMargin := fin (291683913689799 / 140737488355328) } := by
  decide!

/-- The stale state, evaluated: the price is `0` while the held record is the
one computed for price `117699` and size `5000`. -/
theorem staleState_eq :
    staleState =
      { btcPrice := fin 0
        trancheSize := fin 4000
        customTrancheSize := "5000"
        totalTarget := fin 60000
        results := some
          { size := fin 5000
            marketValue := fin 588495000
            atlantisPays := fin 567897675
            sellerNetPayout := fin 579667575
            consultantCommission := fin 8827425
            atlantisSavings := fin 20597325
            pricePerBTC := fin (3902563106559099 / 34359738368)
            transactionsNeeded := fin 12
            totalContractValue := fin 7061940000
            totalAtlantisPays := fin 6814772100
            totalSellerPayout := fin 6956010900
            totalConsultantFees := fin 105929100
            totalAtlantisSavings := fin 247167900
            actualBuyerDiscount := fin (7881299347898369 / 2251799813685248)
            actualConsultantPercent := fin (3 / 2)
            sellerNetMargin := fin (291683913689799 / 140737488355328) } } := by
  decide!

/-- For a price and a size far from overflow and underflow, the stored
single-tranche values and percentages, with their error bounds. -/
theorem specResult_bounds (p s : ℚ) (T : JSNum) (hp0 : 0 < p) (hs0 : 0 < s)
    (hp1 : (2 : ℚ) ^ (-1000 : ℤ) ≤ p) (hp2 : p ≤ 2 ^ (1000 : ℤ))
    (hM1 : (2 : ℚ) ^ (-1000 : ℤ) ≤ s * p) (hM2 : s * p ≤ 2 ^ (1000 : ℤ)) :
    ∃ m a cc snp sav abd acp snm : ℚ,
      (specResult (fin p) (fin s) T).marketValue = fin m ∧
      (specResult (fin p) (fin s) T).atlantisPays = fin a ∧
      (specResult (fin p) (fin s) T).consultantCommission = fin cc ∧
      (specResult (fin p) (fin s) T).sellerNetPayout = fin snp ∧
      (specResult (fin p) (fin s) T).atlantisSavings = fin sav ∧
      (specResult (fin p) (fin s) T).actualBuyerDiscount = fin abd ∧
      (specResult (fin p) (fin s) T).actualConsultantPercent = fin acp ∧
      (specResult (fin p) (fin s) T).sellerNetMargin = fin snm ∧
      roundDouble (s * p) = fin m ∧ roundDouble (m - a) = fin sav ∧
      (∃ x : ℚ, roundDouble x = fin a) ∧
      0 < a ∧ a ≤ m ∧ m ≤ 2 * a ∧
      |abd - 7 / 2| ≤ 1 / 10 ^ 13 ∧ |acp - 3 / 2| ≤ 1 / 10 ^ 15 ∧
      |snm - 400 / 193| ≤ 1 / 10 ^ 13 := by
  have hM0 : 0 < s * p := mul_pos hs0 hp0
  have hfee0 : (0 : ℚ) ≤ (1080863910568919 / 72057594037927936) := by norm_num
  obtain ⟨m, hm, hm1, hm2⟩ := round_scaled (s * p) (s * p)
    1
    1
    (999999999999999888977697 / 1000000000000000000000000)
    (1000000000000000111022303 / 1000000000000000000000000)
    hM0 hM1 hM2
    (by norm_num) (by norm_num)
    (le_of_eq (one_mul _))
    (le_of_eq (one_mul _).symm)
    (by norm_num [unitRoundoff]) (by norm_num [unitRoundoff])
  obtain ⟨pd, hpd, hpd1, hpd2⟩ := round_scaled p (p * (8691947280825057 / 9007199254740992))
    (8691947280825057 / 9007199254740992)
    (8691947280825057 / 9007199254740992)
    (964999999999999861777233 / 1000000000000000000000000)
    (482500000000000038025139 / 500000000000000000000000)
    hp0 hp1 hp2
    (by norm_num) (by norm_num)
    (le_of_eq (mul_comm _ _))
    (le_of_eq (mul_comm _ _))
    (by norm_num [unitRoundoff]) (by norm_num [unitRoundoff])
  obtain ⟨a, ha, ha1, ha2⟩ := round_scaled (s * p) (s * pd)
    (964999999999999861777233 / 1000000000000000000000000)
    (482500000000000038025139 / 500000000000000000000000)
    (964999999999999754640711 / 1000000000000000000000000)
    (2412500000000000457967 / 2500000000000000000000)
    hM0 hM1 hM2
    (by norm_num) (by norm_num)
    (by have := mul_le_mul_of_nonneg_left hpd1 hs0.le; linarith)
    (by have := mul_le_mul_of_nonneg_left hpd2 hs0.le; linarith)
    (by norm_num [unitRoundoff]) (by norm_num [unitRoundoff])
  obtain ⟨cc, hcc, hcc1, hcc2⟩ := round_scaled (s * p) (m * (1080863910568919 / 72057594037927936))
    (1080863910568918879999999419052572399543 / 72057594037927936000000000000000000000000)
    (1080863910568919120000000580947427600457 / 72057594037927936000000000000000000000000)
    (14999999999999996114219 / 1000000000000000000000000)
    (7500000000000001387779 / 500000000000000000000000)
    hM0 hM1 hM2
    (by norm_num) (by norm_num)
    (by have := mul_le_mul_of_nonneg_right hm1 hfee0; linarith)
    (by have := mul_le_mul_of_nonneg_right hm2 hfee0; linarith)
    (by norm_num [unitRoundoff]) (by norm_num [unitRoundoff])
  obtain ⟨snp, hsnp, hsnp1, hsnp2⟩ := round_scaled (s * p) (m - cc)
    (984999999999999886202139 / 1000000000000000000000000)
    (246250000000000028727021 / 250000000000000000000000)
    (984999999999999776845171 / 1000000000000000000000000)
    (246250000000000056066263 / 250000000000000000000000)
    hM0 hM1 hM2
    (by norm_num) (by norm_num)
    (by linarith)
    (by linarith)
    (by norm_num [unitRoundoff]) (by norm_num [unitRoundoff])
  obtain ⟨sav, hsav, hsav1, hsav2⟩ := round_scaled (s * p) (m - a)
    (34999999999999705790897 / 1000000000000000000000000)
    (4375000000000044547699 / 125000000000000000000000)
    (8749999999999925476279 / 250000000000000000000000)
    (35000000000000360267373 / 1000000000000000000000000)
    hM0 hM1 hM2
    (by norm_num) (by norm_num)
    (by linarith)
    (by linarith)
    (by norm_num [unitRoundoff]) (by norm_num [unitRoundoff])
  have hqd1 := div_scaled sav m (s * p)
    (8749999999999925476279 / 250000000000000000000000)
    (35000000000000360267373 / 1000000000000000000000000)
    (999999999999999888977697 / 1000000000000000000000000)
    (1000000000000000111022303 / 1000000000000000000000000)
    (6999999999999939603867 / 200000000000000000000000)
    (17500000000000182076577 / 500000000000000000000000)
    hM0 (by norm_num)
    hsav1 hsav2 hm1 hm2 (by norm_num) (by norm_num) (by norm_num) (by norm_num)
  obtain ⟨d1, hd1, hd11, hd12⟩ := round_scaled 1 (sav / m)
    (6999999999999939603867 / 200000000000000000000000)
    (17500000000000182076577 / 500000000000000000000000)
    (17499999999999847066777 / 500000000000000000000000)
    (7000000000000073607787 / 200000000000000000000000)
    one_pos two_zpow_neg_le_one one_le_two_zpow
    (by norm_num) (by norm_num)
    (hqd1.1)
    (hqd1.2)
    (by norm_num [unitRoundoff]) (by norm_num [unitRoundoff])
  obtain ⟨abd, habd, habd1, habd2⟩ := round_scaled 1 (d1 * 100)
    (17499999999999847066777 / 5000000000000000000000)
    (7000000000000073607787 / 2000000000000000000000)
    (3499999999999969024777341 / 1000000000000000000000000)
    (3500000000000037192471559 / 1000000000000000000000000)
    one_pos two_zpow_neg_le_one one_le_two_zpow
    (by norm_num) (by norm_num)
    (by linarith)
    (by linarith)
    (by norm_num [unitRoundoff]) (by norm_num [unitRoundoff])
  have hqd2 := div_scaled cc m (s * p)
    (14999999999999996114219 / 1000000000000000000000000)
    (7500000000000001387779 / 500000000000000000000000)
    (999999999999999888977697 / 1000000000000000000000000)
    (1000000000000000111022303 / 1000000000000000000000000)
    (3749999999999998612221 / 250000000000000000000000)
    (15000000000000004440893 / 1000000000000000000000000)
    hM0 (by norm_num)
    hcc1 hcc2 hm1 hm2 (by norm_num) (by norm_num) (by norm_num) (by norm_num)
  obtain ⟨d2, hd2, hd21, hd22⟩ := round_scaled 1 (cc / m)
    (3749999999999998612221 / 250000000000000000000000)
    (15000000000000004440893 / 1000000000000000000000000)
    (14999999999999992783549 / 1000000000000000000000000)
    (3750000000000001526557 / 250000000000000000000000)
    one_pos two_zpow_neg_le_one one_le_two_zpow
    (by norm_num) (by norm_num)
    (hqd2.1)
    (hqd2.2)
    (by norm_num [unitRoundoff]) (by norm_num [unitRoundoff])
  obtain ⟨acp, hacp, hacp1, hacp2⟩ := round_scaled 1 (d2 * 100)
    (14999999999999992783549 / 10000000000000000000000)
    (3750000000000001526557 / 2500000000000000000000)
    (749999999999999555910723 / 500000000000000000000000)
    (750000000000000388578127 / 500000000000000000000000)
    one_pos two_zpow_neg_le_one one_le_two_zpow
    (by norm_num) (by norm_num)
    (by linarith)
    (by linarith)
    (by norm_num [unitRoundoff]) (by norm_num [unitRoundoff])
  obtain ⟨t3, ht3, ht31, ht32⟩ := round_scaled (s * p) (snp - a)
    (19999999999999593658371 / 1000000000000000000000000)
    (20000000000000469624341 / 1000000000000000000000000)
    (4999999999999897859481 / 250000000000000000000000)
    (5000000000000117961197 / 250000000000000000000000)
    hM0 hM1 hM2
    (by norm_num) (by norm_num)
    (by linarith)
    (by linarith)
    (by norm_num [unitRoundoff]) (by norm_num [unitRoundoff])
  have hqd3 := div_scaled t3 a (s * p)
    (4999999999999897859481 / 250000000000000000000000)
    (5000000000000117961197 / 250000000000000000000000)
    (964999999999999754640711 / 1000000000000000000000000)
    (2412500000000000457967 / 2500000000000000000000)
    (20725388601035842115343 / 1000000000000000000000000)
    (4145077720207352731597 / 200000000000000000000000)
    hM0 (by norm_num)
    ht31 ht32 ha1 ha2 (by norm_num) (by norm_num) (by norm_num) (by norm_num)
  obtain ⟨d3, hd3, hd31, hd32⟩ := round_scaled 1 (t3 / a)
    (20725388601035842115343 / 1000000000000000000000000)
    (4145077720207352731597 / 200000000000000000000000)
    (10362694300517919907181 / 500000000000000000000000)
    (10362694300518382979483 / 500000000000000000000000)
    one_pos two_zpow_neg_le_one one_le_two_zpow
    (by norm_num) (by norm_num)
    (hqd3.1)
    (hqd3.2)
    (by norm_num [unitRoundoff]) (by norm_num [unitRoundoff])
  obtain ⟨snm, hsnm, hsnm1, hsnm2⟩ := round_scaled 1 (d3 * 100)
    (10362694300517919907181 / 5000000000000000000000)
    (10362694300518382979483 / 5000000000000000000000)
    (2072538860103583751338163 / 1000000000000000000000000)
    (2072538860103676825994637 / 1000000000000000000000000)
    one_pos two_zpow_neg_le_one one_le_two_zpow
    (by norm_num) (by norm_num)
    (by linarith)
    (by linarith)
    (by norm_num [unitRoundoff]) (by norm_num [unitRoundoff])
  have hfac : (fin 1 - fin 3.5 / fin 100 : JSNum)
      = fin (8691947280825057 / 9007199254740992) := discountFactor_eq
  have hfee : (fin 1.5 / fin 100 : JSNum)
      = fin (1080863910568919 / 72057594037927936) := feeFactor_eq
  have hm0 : 0 < m := lt_of_lt_of_le (by positivity) hm1
  have ha0 : 0 < a := lt_of_lt_of_le (by positivity) ha1
  have e_m : fin s * fin p = fin m := by rw [JSNum.fin_mul_fin, hm]
  have e_pd : fin p * (fin 1 - fin 3.5 / fin 100) = fin pd := by
    rw [hfac, JSNum.fin_mul_fin, hpd]
  have e_a : fin s * fin pd = fin a := by rw [JSNum.fin_mul_fin, ha]
  have e_cc : fin m * (fin 1.5 / fin 100) = fin cc := by rw [hfee, JSNum.fin_mul_fin, hcc]
  have e_snp : fin m - fin cc = fin snp := by rw [JSNum.fin_sub_fin, hsnp]
  have e_sav : fin m - fin a = fin sav := by rw [JSNum.fin_sub_fin, hsav]
  have e_d1 : fin sav / fin m = fin d1 := by rw [JSNum.fin_div_fin _ _ hm0.ne', hd1]
  have e_abd : fin d1 * fin 100 = fin abd := by rw [JSNum.fin_mul_fin, habd]
  have e_d2 : fin cc / fin m = fin d2 := by rw [JSNum.fin_div_fin _ _ hm0.ne', hd2]
  have e_acp : fin d2 * fin 100 = fin acp := by rw [JSNum.fin_mul_fin, hacp]
  have e_t3 : fin snp - fin a = fin t3 := by rw [JSNum.fin_sub_fin, ht3]
  have e_d3 : fin t3 / fin a = fin d3 := by rw [JSNum.fin_div_fin _ _ ha0.ne', hd3]
  have e_snm : fin d3 * fin 100 = fin snm := by rw [JSNum.fin_mul_fin, hsnm]
  refine ⟨m, a, cc, snp, sav, abd, acp, snm, e_m, ?_, ?_, ?_, ?_, ?_, ?_, ?_, hm, hsav,
    ⟨_, ha⟩, ha0, ?_, ?_, ?_, ?_, ?_⟩
  · show fin s * (fin p * (fin 1 - fin 3.5 / fin 100)) = fin a
    rw [e_pd, e_a]
  · show fin s * fin p * (fin 1.5 / fin 100) = fin cc
    rw [e_m, e_cc]
  · show fin s * fin p - fin s * fin p * (fin 1.5 / fin 100) = fin snp
    rw [e_m, e_cc, e_snp]
  · show fin s * fin p - fin s * (fin p * (fin 1 - fin 3.5 / fin 100)) = fin sav
    rw [e_pd, e_a, e_m, e_sav]
  · show (fin s * fin p - fin s * (fin p * (fin 1 - fin 3.5 / fin 100))) / (fin s * fin p)
      * fin 100 = fin abd
    rw [e_pd, e_a, e_m, e_sav, e_d1, e_abd]
  · show fin s * fin p * (fin 1.5 / fin 100) / (fin s * fin p) * fin 100 = fin acp
    rw [e_m, e_cc, e_d2, e_acp]
  · show (fin s * fin p - fin s * fin p * (fin 1.5 / fin 100)
        - fin s * (fin p * (fin 1 - fin 3.5 / fin 100)))
      / (fin s * (fin p * (fin 1 - fin 3.5 / fin 100))) * fin 100 = fin snm
    rw [e_pd, e_a, e_m, e_cc, e_snp, e_t3, e_d3, e_snm]
  · linarith
  · linarith
  · exact abs_le.2 ⟨by linarith, by linarith⟩
  · exact abs_le.2 ⟨by linarith, by linarith⟩
  · exact abs_le.2 ⟨by linarith, by linarith⟩

/-! ## Claims about `calculateTranche` -/

/-- C1, as stated, fails: on the initial inputs the stored record is not the
record of the formulas over exact arithmetic.  The code stores
`pricePerBTC = 3902563106559099 / 2 ^ 35`,
`actualBuyerDiscount = 7881299347898369 / 2 ^ 51` (3.5000000000000004) and
`sellerNetMargin = 291683913689799 / 2 ^ 47` (2.072538860103627), where exact
arithmetic gives `22715907 / 200`, `7 / 2` and `400 / 193`. -/
theorem calculateTranche_exact_counterexample :
    (calculateTranche initialState).results ≠ some (specResultExact 117699 4000 60000) ∧
    (calculateTranche initialState).results.map
        (fun r => (r.pricePerBTC, r.actualBuyerDiscount, r.sellerNetMargin))
      = some (fin (3902563106559099 / 34359738368), fin (7881299347898369 / 2251799813685248),
          fin (291683913689799 / 140737488355328)) ∧
    ((specResultExact 117699 4000 60000).pricePerBTC,
        (specResultExact 117699 4000 60000).actualBuyerDiscount,
        (specResultExact 117699 4000 60000).sellerNetMargin)
      = (fin (22715907 / 200), fin (7 / 2), fin (400 / 193)) := by
  decide!

/-- C1, amended: for every state with `btcPrice > 0` and effective tranche size
`> 0`, `calculateTranche` stores the record whose every field is the
specification's formula evaluated in binary64 arithmetic, each operation
rounded to nearest (`specResult`), not the formula over exact arithmetic. -/
theorem calculateTranche_matches_spec (st : State) (hb : st.btcPrice.pos)
    (hs : (effectiveSize st).pos) :
    (calculateTranche st).results =
      some (specResult st.btcPrice (effectiveSize st) st.totalTarget) := by
  rw [calculateTranche_eq_specResult st ((guardFails_eq_false_iff st).2 ⟨hs, hb⟩)]

theorem calculateTranche_matches_spec_witness :
    (calculateTranche initialState).results =
      some (specResult initialState.btcPrice (effectiveSize initialState)
        initialState.totalTarget) :=
  calculateTranche_matches_spec initialState (by simp [initialState, JSNum.pos])
    (by simp [effectiveSize_initialState, JSNum.pos])

/-- C2: when the price or the effective tranche size is not a positive number
(zero, negative, or `NaN` from an absent or unparsable value) `calculateTranche`
returns the state exactly as it was, held results included; in every other
state it stores a new record and leaves the four inputs as they were. -/
theorem calculateTranche_guard (st : State) :
    ((¬ st.btcPrice.pos ∨ ¬ (effectiveSize st).pos) → calculateTranche st = st) ∧
    ((st.btcPrice.pos ∧ (effectiveSize st).pos) →
      ∃ r : Results, calculateTranche st = { st with results := some r } ∧
        r.size = effectiveSize st) := by
  constructor
  · intro h
    have hg : guardFails st = true := by
      cases hgf : guardFails st with
      | true => rfl
      | false =>
          have := (guardFails_eq_false_iff st).1 hgf
          tauto
    simp [calculateTranche, hg]
  · intro h
    have hg : guardFails st = false := (guardFails_eq_false_iff st).2 ⟨h.2, h.1⟩
    simp only [calculateTranche, hg]
    exact ⟨_, rfl, rfl⟩

theorem calculateTranche_guard_witness :
    calculateTranche staleState = staleState ∧
    ∃ r : Results, calculateTranche initialState = { initialState with results := some r } ∧
      r.size = effectiveSize initialState :=
  ⟨(calculateTranche_guard staleState).1 (Or.inl (by
      rw [staleState_eq]
      exact lt_irrefl (0 : ℚ))),
   (calculateTranche_guard initialState).2 ⟨by simp [initialState, JSNum.pos], by
      simp [effectiveSize_initialState, JSNum.pos]⟩⟩

/-- C3, as stated, fails: with price `117699`, standard tranche `4000` and the
custom field holding `abc`, which does not parse, the effective size is `NaN`
rather than the standard tranche and no result is stored. -/
theorem effectiveSize_unparsable_counterexample :
    unparsableState.btcPrice = fin 117699 ∧ unparsableState.trancheSize = fin 4000 ∧
    parseFloat unparsableState.customTrancheSize = nan ∧
    effectiveSize unparsableState = nan ∧
    effectiveSize unparsableState ≠ unparsableState.trancheSize ∧
    (calculateTranche unparsableState).results = none := by
  have he : effectiveSize unparsableState = nan := by
    simp [effectiveSize, unparsableState, parseFloat_abc]
  refine ⟨rfl, rfl, parseFloat_abc, he, ?_, ?_⟩
  · rw [he]
    simp [unparsableState, initialState]
  · have hg : guardFails unparsableState = true := by simp [guardFails, he, JSNum.truthy]
    simp only [calculateTranche, hg, if_true]
    rfl

/-- C3, amended: the effective tranche size is `parseFloat customTrancheSize`
whenever the custom field is not empty and is `trancheSize` exactly when it is
empty; a non-empty custom field that does not parse makes `calculateTranche`
return the state unchanged; and with the custom field empty, a positive price
and a positive standard tranche, the stored record's `size` is `trancheSize`. -/
theorem effectiveSize_resolution (st : State) :
    (st.customTrancheSize ≠ "" → effectiveSize st = parseFloat st.customTrancheSize) ∧
    (st.customTrancheSize = "" → effectiveSize st = st.trancheSize) ∧
    (st.customTrancheSize ≠ "" → parseFloat st.customTrancheSize = nan →
      calculateTranche st = st) ∧
    (st.customTrancheSize = "" → st.btcPrice.pos → st.trancheSize.pos →
      ∃ r : Results, (calculateTranche st).results = some r ∧ r.size = st.trancheSize) := by
  refine ⟨fun h => by simp [effectiveSize, h], fun h => by simp [effectiveSize, h], ?_, ?_⟩
  · intro h hn
    have he : effectiveSize st = nan := by simp [effectiveSize, h, hn]
    simp [calculateTranche, guardFails, he, JSNum.truthy]
  · intro h hb ht
    have he : effectiveSize st = st.trancheSize := by simp [effectiveSize, h]
    have hg : guardFails st = false := (guardFails_eq_false_iff st).2 ⟨he ▸ ht, hb⟩
    simp only [calculateTranche, hg]
    exact ⟨_, rfl, he⟩

theorem effectiveSize_resolution_witness :
    (effectiveSize unparsableState = parseFloat unparsableState.customTrancheSize) ∧
    (calculateTranche unparsableState = unparsableState) ∧
    (effectiveSize initialState = initialState.trancheSize) ∧
    (∃ r : Results, (calculateTranche initialState).results = some r ∧
      r.size = initialState.trancheSize) :=
  ⟨(effectiveSize_resolution unparsableState).1 (by decide),
   (effectiveSize_resolution unparsableState).2.2.1 (by decide) parseFloat_abc,
   (effectiveSize_resolution initialState).2.1 rfl,
   (effectiveSize_resolution initialState).2.2.2 rfl (by simp [initialState, JSNum.pos])
     (by simp [initialState, JSNum.pos])⟩

/-- C4, as stated, fails: on the initial inputs the stored `pricePerBTC` is the
binary64 value `3902563106559099 / 2 ^ 35`, not `113579.535`, and the stored
`actualBuyerDiscount` is `7881299347898369 / 2 ^ 51`, not `3.5`. -/
theorem calculateTranche_initialState_counterexample :
    (calculateTranche initialState).results.map
        (fun r => (r.pricePerBTC, r.actualBuyerDiscount))
      = some (fin (3902563106559099 / 34359738368), fin (7881299347898369 / 2251799813685248)) ∧
    fin (3902563106559099 / 34359738368) ≠ fin 113579.535 ∧
    fin (7881299347898369 / 2251799813685248) ≠ fin 3.5 := by
  decide!

/-- C4, amended: on the initial inputs (`117699`, `4000`, empty custom field,
`60000`) `calculateTranche` stores `marketValue = 470796000`,
`atlantisPays = 454318140`, `consultantCommission = 7061940`,
`sellerNetPayout = 463734060`, `atlantisSavings = 16477860` and
`transactionsNeeded = 15` exactly, `pricePerBTC = 3902563106559099 / 2 ^ 35`
(the binary64 value nearest `113579.535`) and
`actualBuyerDiscount = 7881299347898369 / 2 ^ 51` (`3.5000000000000004`). -/
theorem calculateTranche_initialState :
    ∃ r : Results, (calculateTranche initialState).results = some r ∧
      r.pricePerBTC = fin (3902563106559099 / 2 ^ 35) ∧ r.marketValue = fin 470796000 ∧
      r.atlantisPays = fin 454318140 ∧ r.consultantCommission = fin 7061940 ∧
      r.sellerNetPayout = fin 463734060 ∧ r.atlantisSavings = fin 16477860 ∧
      r.actualBuyerDiscount = fin (7881299347898369 / 2 ^ 51) ∧
      r.transactionsNeeded = fin 15 := by
  refine ⟨_, initialResults_eq, ?_, rfl, rfl, rfl, rfl, rfl, ?_, rfl⟩
  · show fin _ = fin _
    norm_num
  · show fin _ = fin _
    norm_num

/-- C5, as stated, fails: with `0.1` typed as custom tranche and `1.1` as
total target, the stored `transactionsNeeded` is `11`, yet `11 * size` is
below `totalTarget` for the two binary64 values held. -/
theorem transactionsNeeded_counterexample :
    tenthState.btcPrice = fin 117699 ∧
    effectiveSize tenthState = fin (3602879701896397 / 36028797018963968) ∧
    tenthState.totalTarget = fin (2476979795053773 / 2251799813685248) ∧
    (calculateTranche tenthState).results.map (fun r => (r.size, r.transactionsNeeded))
      = some (fin (3602879701896397 / 36028797018963968), fin 11) ∧
    (11 : ℚ) * (3602879701896397 / 36028797018963968) < 2476979795053773 / 2251799813685248 := by
  decide!

/-- C5, amended: for a finite price `p > 0`, a finite effective size `s > 0` and
a finite total target `t` whose binary64 quotient `q`, the rounded `t / s`, is
finite, the stored `transactionsNeeded` is the least integer `n` with `n ≥ q`;
when the division is exact (`q = t / s`) it is the least integer with
`n * s ≥ t`; and if `t = k * s` for an integer `k` with `|k| < 2 ^ 53` then
`n = k`. -/
theorem transactionsNeeded_least (st : State) (p s t q : ℚ) (hp : st.btcPrice = fin p)
    (hs : effectiveSize st = fin s) (ht : st.totalTarget = fin t) (hpp : 0 < p) (hss : 0 < s)
    (hq : roundDouble (t / s) = fin q) :
    ∃ (r : Results) (n : ℤ), (calculateTranche st).results = some r ∧
      r.transactionsNeeded = fin (n : ℚ) ∧ q ≤ (n : ℚ) ∧ (∀ m : ℤ, q ≤ (m : ℚ) → n ≤ m) ∧
      (q = t / s → t ≤ (n : ℚ) * s ∧ ∀ m : ℤ, t ≤ (m : ℚ) * s → n ≤ m) ∧
      (∀ k : ℤ, |k| < 2 ^ 53 → t = (k : ℚ) * s → n = k) := by
  rw [calculateTranche_eq_specResult st (guardFails_fin st p s hp hs hpp hss)]
  refine ⟨_, ⌈q⌉, rfl, ?_, Int.le_ceil q, fun m hm => Int.ceil_le.2 hm, ?_, ?_⟩
  · show JSNum.ceil (st.totalTarget / effectiveSize st) = _
    rw [ht, hs, JSNum.fin_div_fin _ _ hss.ne', hq, JSNum.ceil_fin]
  · intro hqe
    rw [hqe]
    exact ⟨(div_le_iff₀ hss).1 (Int.le_ceil (t / s)),
      fun m hm => Int.ceil_le.2 ((div_le_iff₀ hss).2 hm)⟩
  · intro k hk hkt
    have h1 : t / s = (k : ℚ) := by
      rw [hkt, mul_div_assoc, div_self hss.ne', mul_one]
    have h2 : roundDouble (t / s) = fin (k : ℚ) := by
      rw [h1]
      exact roundDouble_of_isDouble (isDouble_intCast k hk)
    have h3 : q = (k : ℚ) := by
      rw [hq] at h2
      injection h2
    rw [h3, Int.ceil_intCast]

theorem transactionsNeeded_least_witness :
    ∃ (r : Results) (n : ℤ), (calculateTranche initialState).results = some r ∧
      r.transactionsNeeded = fin (n : ℚ) ∧ (15 : ℚ) ≤ (n : ℚ) ∧
      (∀ m : ℤ, (15 : ℚ) ≤ (m : ℚ) → n ≤ m) ∧
      ((15 : ℚ) = 60000 / 4000 →
        (60000 : ℚ) ≤ (n : ℚ) * 4000 ∧ ∀ m : ℤ, (60000 : ℚ) ≤ (m : ℚ) * 4000 → n ≤ m) ∧
      (∀ k : ℤ, |k| < 2 ^ 53 → (60000 : ℚ) = (k : ℚ) * 4000 → n = k) :=
  transactionsNeeded_least initialState 117699 4000 60000 15 rfl effectiveSize_initialState rfl
    (by norm_num) (by norm_num) (by decide!)

/-- C6, as stated, fails: with `1e200` typed as custom tranche and as price,
both finite and positive, the product overflows: `marketValue` and
`atlantisPays` are `Infinity`, `sellerNetPayout` is `NaN` and
`marketValue - atlantisSavings` is `NaN`, not `atlantisPays`. -/
theorem marketValue_decomposition_counterexample :
    overflowState.btcPrice.isFinite = true ∧ overflowState.btcPrice.pos ∧
    (effectiveSize overflowState).isFinite = true ∧ (effectiveSize overflowState).pos ∧
    (calculateTranche overflowState).results.map
        (fun r => (r.marketValue, r.atlantisPays, r.sellerNetPayout,
          r.marketValue - r.atlantisSavings))
      = some (inf false, inf false, nan, nan) := by
  decide!

/-- C6, amended: for a finite price `p` and a finite effective size `s` with
`2 ^ (-1000) ≤ p ≤ 2 ^ 1000` and `2 ^ (-1000) ≤ s * p ≤ 2 ^ 1000`, so that no
product overflows or underflows, `marketValue`, `consultantCommission`,
`sellerNetPayout` and `atlantisPays` are finite, `sellerNetPayout` is the
binary64 difference `marketValue - consultantCommission`, `atlantisSavings` is
`marketValue - atlantisPays` without rounding, and
`atlantisPays = marketValue - atlantisSavings`. -/
theorem marketValue_decomposition (st : State) (p s : ℚ) (hp : st.btcPrice = fin p)
    (hs : effectiveSize st = fin s) (hp1 : (2 : ℚ) ^ (-1000 : ℤ) ≤ p)
    (hp2 : p ≤ 2 ^ (1000 : ℤ)) (hM1 : (2 : ℚ) ^ (-1000 : ℤ) ≤ s * p)
    (hM2 : s * p ≤ 2 ^ (1000 : ℤ)) :
    ∃ (r : Results) (m c n a : ℚ), (calculateTranche st).results = some r ∧
      r.marketValue = fin m ∧ r.consultantCommission = fin c ∧ r.sellerNetPayout = fin n ∧
      r.atlantisPays = fin a ∧
      r.sellerNetPayout = r.marketValue - r.consultantCommission ∧
      r.atlantisSavings = fin (m - a) ∧
      r.atlantisPays = r.marketValue - r.atlantisSavings := by
  have h20 : (0 : ℚ) < 2 := by norm_num
  have hpp : 0 < p := lt_of_lt_of_le (zpow_pos h20 _) hp1
  have hss : 0 < s :=
    pos_of_mul_pos_left (lt_of_lt_of_le (zpow_pos h20 _) hM1) hpp.le
  obtain ⟨m, a, c, n, sav, _, _, _, e_m, e_a, e_c, e_n, e_sav, _, _, _, hm, hsav, ⟨x, hx⟩, ha0,
    ham, hma, _, _, _⟩ := specResult_bounds p s st.totalTarget hpp hss hp1 hp2 hM1 hM2
  have hda : IsDouble a := isDouble_of_roundDouble hx
  have hdm : IsDouble m := isDouble_of_roundDouble hm
  have hexact : roundDouble (m - a) = fin (m - a) :=
    roundDouble_of_isDouble (isDouble_sub hda hdm ha0 ham hma)
  have hsv : sav = m - a := by
    rw [hsav] at hexact
    injection hexact
  rw [calculateTranche_eq_specResult st (guardFails_fin st p s hp hs hpp hss), hp, hs]
  refine ⟨_, m, c, n, a, rfl, e_m, e_c, e_n, e_a, rfl, ?_, ?_⟩
  · rw [← hsv]
    exact e_sav
  · show (specResult (fin p) (fin s) st.totalTarget).atlantisPays
      = (specResult (fin p) (fin s) st.totalTarget).marketValue
        - (specResult (fin p) (fin s) st.totalTarget).atlantisSavings
    rw [e_a, e_m, e_sav, hsv, JSNum.fin_sub_fin, sub_sub_cancel, roundDouble_of_isDouble hda]

theorem marketValue_decomposition_witness :
    ∃ (r : Results) (m c n a : ℚ), (calculateTranche initialState).results = some r ∧
      r.marketValue = fin m ∧ r.consultantCommission = fin c ∧ r.sellerNetPayout = fin n ∧
      r.atlantisPays = fin a ∧
      r.sellerNetPayout = r.marketValue - r.consultantCommission ∧
      r.atlantisSavings = fin (m - a) ∧
      r.atlantisPays = r.marketValue - r.atlantisSavings :=
  marketValue_decomposition initialState 117699 4000 rfl effectiveSize_initialState
    (le_trans two_zpow_neg_le_one (by norm_num))
    (le_trans (by norm_num : (117699 : ℚ) ≤ 2 ^ (17 : ℤ))
      (zpow_le_zpow_right₀ (by norm_num) (by norm_num)))
    (le_trans two_zpow_neg_le_one (by norm_num))
    (le_trans (by norm_num : (4000 * 117699 : ℚ) ≤ 2 ^ (29 : ℤ))
      (zpow_le_zpow_right₀ (by norm_num) (by norm_num)))

/-- C7, as stated, fails: at price `99999.99` and total target `3`, taking
`k = 3` gives `totalContractValue = 7730940359705887 / 2 ^ 33` (899999.91)
for the target `9`, while `3` times the original value is
`241591886240809 / 2 ^ 28` (899999.9100000001). -/
theorem totalContractValue_scaling_counterexample :
    scalingState.btcPrice = fin (6871946986405233 / 68719476736) ∧
    effectiveSize scalingState = fin 4000 ∧ scalingState.totalTarget = fin 3 ∧
    (calculateTranche scalingState).results.map (fun r => fin 3 * r.totalContractValue)
      = some (fin (241591886240809 / 268435456)) ∧
    (calculateTranche
        { scalingState with totalTarget := fin 3 * scalingState.totalTarget }).results.map
        (fun r => r.totalContractValue)
      = some (fin (7730940359705887 / 8589934592)) ∧
    (fin (7730940359705887 / 8589934592) : JSNum) ≠ fin (241591886240809 / 268435456) := by
  decide!

/-- C7, amended: for a finite price `p > 0`, a finite effective size `s > 0`, a
finite total target `t` and `k > 0`, replacing `totalTarget` by
`k * totalTarget` multiplies the stored `totalContractValue` by `k` whenever
the three products `k * t`, `t * p` and `k * t * p` are binary64 values, so
that no product is rounded. -/
theorem totalContractValue_scaling (st : State) (p s t k : ℚ) (hp : st.btcPrice = fin p)
    (hs : effectiveSize st = fin s) (ht : st.totalTarget = fin t) (hpp : 0 < p) (hss : 0 < s)
    (_hk : 0 < k) (h1 : roundDouble (k * t) = fin (k * t))
    (h2 : roundDouble (t * p) = fin (t * p))
    (h3 : roundDouble (k * t * p) = fin (k * t * p)) :
    ∃ r r' : Results, (calculateTranche st).results = some r ∧
      (calculateTranche { st with totalTarget := fin k * st.totalTarget }).results = some r' ∧
      r'.totalContractValue = fin k * r.totalContractValue := by
  have hg := guardFails_fin st p s hp hs hpp hss
  have hg' : guardFails { st with totalTarget := fin k * st.totalTarget } = false :=
    guardFails_fin _ p s hp hs hpp hss
  rw [calculateTranche_eq_specResult st hg, calculateTranche_eq_specResult _ hg']
  refine ⟨_, _, rfl, rfl, ?_⟩
  show fin k * st.totalTarget * st.btcPrice = fin k * (st.totalTarget * st.btcPrice)
  rw [hp, ht, JSNum.fin_mul_fin, JSNum.fin_mul_fin, h1, h2, JSNum.fin_mul_fin,
    JSNum.fin_mul_fin, ← mul_assoc, h3]

theorem totalContractValue_scaling_witness :
    ∃ r r' : Results, (calculateTranche initialState).results = some r ∧
      (calculateTranche
        { initialState with totalTarget := fin 2 * initialState.totalTarget }).results = some r' ∧
      r'.totalContractValue = fin 2 * r.totalContractValue :=
  totalContractValue_scaling initialState 117699 4000 60000 2 rfl effectiveSize_initialState rfl
    (by norm_num) (by norm_num) (by norm_num) (by decide!) (by decide!) (by decide!)

/-- C8, as stated, fails: with `1e-200` typed as custom tranche and as price the
guard passes, the product underflows, `marketValue` and `atlantisPays` are `0`
and the three percentages are `0 / 0 = NaN`. -/
theorem divisors_underflow_counterexample :
    guardFails underflowState = false ∧
    (calculateTranche underflowState).results.map
        (fun r => (r.marketValue, r.atlantisPays, r.actualBuyerDiscount,
          r.actualConsultantPercent, r.sellerNetMargin))
      = some (fin 0, fin 0, nan, nan, nan) := by
  decide!

/-- C8, amended: whenever `calculateTranche` gets past its guard, the price being
a binary64 value or `Infinity`, the divisor `size` is strictly positive,
`pricePerBTC` is strictly positive, and the divisors `marketValue` and
`atlantisPays` are non-negative numbers, never `NaN`; each of the two is
strictly positive whenever the exact product it rounds, `size * btcPrice` or
`size * pricePerBTC`, exceeds `2 ^ (-1075)`.  A zero divisor arises only from a
product of finite values that underflows. -/
theorem divisors_nonneg (st : State) (hg : guardFails st = false)
    (hd : ∀ p : ℚ, st.btcPrice = fin p → IsDouble p) :
    ∃ r : Results, (calculateTranche st).results = some r ∧
      r.transactionsNeeded = JSNum.ceil (st.totalTarget / r.size) ∧
      r.actualBuyerDiscount = (r.marketValue - r.atlantisPays) / r.marketValue * fin 100 ∧
      r.actualConsultantPercent = r.consultantCommission / r.marketValue * fin 100 ∧
      r.sellerNetMargin = (r.sellerNetPayout - r.atlantisPays) / r.atlantisPays * fin 100 ∧
      r.size = effectiveSize st ∧ r.size.pos ∧ r.pricePerBTC.pos ∧
      r.marketValue.nonneg ∧ r.atlantisPays.nonneg ∧
      (∀ s p : ℚ, r.size = fin s → st.btcPrice = fin p →
        (2 : ℚ) ^ (-1075 : ℤ) < s * p → r.marketValue.pos) ∧
      (∀ s x : ℚ, r.size = fin s → r.pricePerBTC = fin x →
        (2 : ℚ) ^ (-1075 : ℤ) < s * x → r.atlantisPays.pos) := by
  obtain ⟨hsz, hbp⟩ := (guardFails_eq_false_iff st).1 hg
  have h20 : (0 : ℚ) < 2 := by norm_num
  have hfac : (fin 1 - fin 3.5 / fin 100 : JSNum)
      = fin (8691947280825057 / 9007199254740992) := discountFactor_eq
  -- the discounted price is strictly positive
  have hpd : (st.btcPrice * (fin 1 - fin 3.5 / fin 100)).pos := by
    rw [hfac]
    cases hb : st.btcPrice with
    | nan => rw [hb] at hbp; exact hbp.elim
    | fin p =>
        rw [hb] at hbp
        have hp0 : (0 : ℚ) < p := hbp
        have hp1 := isDouble_pos_ge (hd p hb) hp0
        rw [JSNum.fin_mul_fin]
        apply roundDouble_pos
        have e : (2 : ℚ) ^ (-1075 : ℤ) = 2 ^ (-1074 : ℤ) * (1 / 2) := by
          rw [show (-1075 : ℤ) = -1074 + -1 by norm_num, zpow_add₀ h20.ne', zpow_neg_one]
          ring
        rw [e]
        calc (2 : ℚ) ^ (-1074 : ℤ) * (1 / 2)
            < 2 ^ (-1074 : ℤ) * (8691947280825057 / 9007199254740992) :=
              mul_lt_mul_of_pos_left (by norm_num) (zpow_pos h20 _)
          _ ≤ p * (8691947280825057 / 9007199254740992) :=
              mul_le_mul_of_nonneg_right hp1 (by norm_num)
    | inf b =>
        rw [hb] at hbp
        have hbf : b = false := hbp
        show (JSNum.mul (inf b) (fin (8691947280825057 / 9007199254740992))).pos
        simp [JSNum.mul, JSNum.pos, hbf]
        norm_num
  rw [calculateTranche_eq_specResult st hg]
  refine ⟨_, rfl, rfl, rfl, rfl, rfl, rfl, hsz, hpd, JSNum.mul_nonneg_of_pos hsz hbp,
    JSNum.mul_nonneg_of_pos hsz hpd, ?_, ?_⟩
  · intro s p hs hp h
    show (effectiveSize st * st.btcPrice).pos
    have hs' : effectiveSize st = fin s := hs
    rw [hs', hp, JSNum.fin_mul_fin]
    exact roundDouble_pos h
  · intro s x hs hx h
    show (effectiveSize st * (st.btcPrice * (fin 1 - fin 3.5 / fin 100))).pos
    have hs' : effectiveSize st = fin s := hs
    have hx' : st.btcPrice * (fin 1 - fin 3.5 / fin 100) = fin x := hx
    rw [hs', hx', JSNum.fin_mul_fin]
    exact roundDouble_pos h

theorem divisors_nonneg_witness :
    ∃ r : Results, (calculateTranche initialState).results = some r ∧
      r.transactionsNeeded = JSNum.ceil (initialState.totalTarget / r.size) ∧
      r.actualBuyerDiscount = (r.marketValue - r.atlantisPays) / r.marketValue * fin 100 ∧
      r.actualConsultantPercent = r.consultantCommission / r.marketValue * fin 100 ∧
      r.sellerNetMargin = (r.sellerNetPayout - r.atlantisPays) / r.atlantisPays * fin 100 ∧
      r.size = effectiveSize initialState ∧ r.size.pos ∧ r.pricePerBTC.pos ∧
      r.marketValue.nonneg ∧ r.atlantisPays.nonneg ∧
      (∀ s p : ℚ, r.size = fin s → initialState.btcPrice = fin p →
        (2 : ℚ) ^ (-1075 : ℤ) < s * p → r.marketValue.pos) ∧
      (∀ s x : ℚ, r.size = fin s → r.pricePerBTC = fin x →
        (2 : ℚ) ^ (-1075 : ℤ) < s * x → r.atlantisPays.pos) :=
  divisors_nonneg initialState
    (guardFails_fin initialState 117699 4000 rfl effectiveSize_initialState (by norm_num)
      (by norm_num))
    (fun p hp => by
      have h : (117699 : ℚ) = p := by
        have h' : fin 117699 = fin p := hp
        injection h'
      rw [← h]
      exact isDouble_intCast 117699 (by norm_num))

/-! ## Claims about the percentages and the exported document -/

/-- C10, as stated, fails: the stored percentages are rounded values that vary
with the size.  On the initial inputs they are `7881299347898369 / 2 ^ 51`
(3.5000000000000004), `3 / 2` and `291683913689799 / 2 ^ 47`
(2.072538860103627); with `7` typed as custom tranche they are
`7881299347898369 / 2 ^ 51`, `6755399441055745 / 2 ^ 52`
(1.5000000000000002) and `1166735654759195 / 2 ^ 49` (2.0725388601036254). -/
theorem percentages_counterexample :
    (calculateTranche initialState).results.map
        (fun r => (r.actualBuyerDiscount, r.actualConsultantPercent, r.sellerNetMargin))
      = some (fin (7881299347898369 / 2251799813685248), fin (3 / 2),
          fin (291683913689799 / 140737488355328)) ∧
    (calculateTranche sevenState).results.map
        (fun r => (r.actualBuyerDiscount, r.actualConsultantPercent, r.sellerNetMargin))
      = some (fin (7881299347898369 / 2251799813685248),
          fin (6755399441055745 / 4503599627370496),
          fin (1166735654759195 / 562949953421312)) ∧
    fin (7881299347898369 / 2251799813685248) ≠ NET_BUYER_DISCOUNT ∧
    fin (6755399441055745 / 4503599627370496) ≠ CONSULTANT_FEE ∧
    fin (291683913689799 / 140737488355328) ≠ fin (400 / 193) ∧
    (fin (291683913689799 / 140737488355328) : JSNum)
      ≠ fin (1166735654759195 / 562949953421312) := by
  decide!

/-- C10, amended: for a finite price `p` and a finite effective size `s` with
`2 ^ (-1000) ≤ p ≤ 2 ^ 1000` and `2 ^ (-1000) ≤ s * p ≤ 2 ^ 1000`, the three
stored percentages are finite values within `10 ^ (-13)` of `3.5`,
`10 ^ (-15)` of `1.5` and `10 ^ (-13)` of `400 / 193`; `sellerNetMargin` is
not `SELLER_MARGIN = 2.0`; and the three fields are the same whatever the
total target. -/
theorem percentages_approx (st : State) (p s : ℚ) (hp : st.btcPrice = fin p)
    (hs : effectiveSize st = fin s) (hp1 : (2 : ℚ) ^ (-1000 : ℤ) ≤ p)
    (hp2 : p ≤ 2 ^ (1000 : ℤ)) (hM1 : (2 : ℚ) ^ (-1000 : ℤ) ≤ s * p)
    (hM2 : s * p ≤ 2 ^ (1000 : ℤ)) :
    ∃ (r : Results) (x y z : ℚ), (calculateTranche st).results = some r ∧
      r.actualBuyerDiscount = fin x ∧ |x - 3.5| ≤ 1 / 10 ^ 13 ∧
      r.actualConsultantPercent = fin y ∧ |y - 1.5| ≤ 1 / 10 ^ 15 ∧
      r.sellerNetMargin = fin z ∧ |z - 400 / 193| ≤ 1 / 10 ^ 13 ∧
      r.sellerNetMargin ≠ SELLER_MARGIN ∧
      ∀ T : JSNum, ∃ r' : Results,
        (calculateTranche { st with totalTarget := T }).results = some r' ∧
        r'.actualBuyerDiscount = r.actualBuyerDiscount ∧
        r'.actualConsultantPercent = r.actualConsultantPercent ∧
        r'.sellerNetMargin = r.sellerNetMargin := by
  have h20 : (0 : ℚ) < 2 := by norm_num
  have hpp : 0 < p := lt_of_lt_of_le (zpow_pos h20 _) hp1
  have hss : 0 < s :=
    pos_of_mul_pos_left (lt_of_lt_of_le (zpow_pos h20 _) hM1) hpp.le
  obtain ⟨_, _, _, _, _, x, y, z, _, _, _, _, _, e_x, e_y, e_z, _, _, _, _, _, _, hx, hy, hz⟩ :=
    specResult_bounds p s st.totalTarget hpp hss hp1 hp2 hM1 hM2
  have hg := guardFails_fin st p s hp hs hpp hss
  have hres : (calculateTranche st).results
      = some (specResult (fin p) (fin s) st.totalTarget) := by
    rw [calculateTranche_eq_specResult st hg, hp, hs]
  refine ⟨_, x, y, z, hres, e_x, ?_, e_y, ?_, e_z, hz, ?_, ?_⟩
  · have : (3.5 : ℚ) = 7 / 2 := by norm_num
    rw [this]
    exact hx
  · have : (1.5 : ℚ) = 3 / 2 := by norm_num
    rw [this]
    exact hy
  · rw [e_z]
    intro h
    have h2 : z = 2.0 := by
      have h' : fin z = fin 2.0 := h
      injection h'
    rw [h2] at hz
    have h3 := (abs_le.1 hz).1
    norm_num at h3
  · intro T
    have hg' : guardFails { st with totalTarget := T } = false :=
      guardFails_fin _ p s hp hs hpp hss
    have hres' : (calculateTranche { st with totalTarget := T }).results
        = some (specResult (fin p) (fin s) T) := by
      rw [calculateTranche_eq_specResult _ hg']
      show some (specResult st.btcPrice (effectiveSize st) T) = _
      rw [hp, hs]
    exact ⟨_, hres', rfl, rfl, rfl⟩

theorem percentages_approx_witness :
    ∃ (r : Results) (x y z : ℚ), (calculateTranche initialState).results = some r ∧
      r.actualBuyerDiscount = fin x ∧ |x - 3.5| ≤ 1 / 10 ^ 13 ∧
      r.actualConsultantPercent = fin y ∧ |y - 1.5| ≤ 1 / 10 ^ 15 ∧
      r.sellerNetMargin = fin z ∧ |z - 400 / 193| ≤ 1 / 10 ^ 13 ∧
      r.sellerNetMargin ≠ SELLER_MARGIN ∧
      ∀ T : JSNum, ∃ r' : Results,
        (calculateTranche { initialState with totalTarget := T }).results = some r' ∧
        r'.actualBuyerDiscount = r.actualBuyerDiscount ∧
        r'.actualConsultantPercent = r.actualConsultantPercent ∧
        r'.sellerNetMargin = r.sellerNetMargin :=
  percentages_approx initialState 117699 4000 rfl effectiveSize_initialState
    (le_trans two_zpow_neg_le_one (by norm_num))
    (le_trans (by norm_num : (117699 : ℚ) ≤ 2 ^ (17 : ℤ))
      (zpow_le_zpow_right₀ (by norm_num) (by norm_num)))
    (le_trans two_zpow_neg_le_one (by norm_num))
    (le_trans (by norm_num : (4000 * 117699 : ℚ) ≤ 2 ^ (29 : ℤ))
      (zpow_le_zpow_right₀ (by norm_num) (by norm_num)))

/-- C9, as stated, fails: typing `5000` into the custom tranche field and then
`0` into the price field reaches a state whose held record is still the one
for price `117699`, while the exported document reports price `0`; so
`marketValue = 588495000` is not `trancheSize * btcPrice = 5000 * 0`, and
`totalContractValue = 7061940000` is not `totalTarget * btcPrice = 60000 * 0`. -/
theorem exportData_stale_counterexample :
    Reachable staleState ∧
    (exportData staleState "2025-01-01T00:00:00.000Z").map
        (fun d => (d.btcPrice, d.trancheSize, d.singleTranche.marketValue,
          d.fullContract.totalTarget, d.fullContract.totalContractValue))
      = some (fin 0, fin 5000, fin 588495000, fin 60000, fin 7061940000) ∧
    fin 588495000 ≠ fin 5000 * fin 0 ∧ fin 7061940000 ≠ fin 60000 * fin 0 := by
  refine ⟨Reachable.edit _ (Reachable.edit _ Reachable.init), ?_, ?_, ?_⟩
  · rw [staleState_eq]
    rfl
  · decide!
  · decide!

/-- C9, amended: in every reachable state whose current inputs pass the guard of
`calculateTranche` (price and effective tranche size positive), if `results`
is non-null then the exported document has
`singleTranche.marketValue = trancheSize * btcPrice` and
`fullContract.totalContractValue = fullContract.totalTarget * btcPrice`. -/
theorem exportData_consistent (st : State) (now : String) (hr : Reachable st)
    (hg : guardFails st = false) (doc : ExportDoc) (hd : exportData st now = some doc) :
    doc.singleTranche.marketValue = doc.trancheSize * doc.btcPrice ∧
    doc.fullContract.totalContractValue = doc.fullContract.totalTarget * doc.btcPrice := by
  have key : ∀ s : State, guardFails (calculateTranche s) = false →
      ∀ d : ExportDoc, exportData (calculateTranche s) now = some d →
      d.singleTranche.marketValue = d.trancheSize * d.btcPrice ∧
      d.fullContract.totalContractValue = d.fullContract.totalTarget * d.btcPrice := by
    intro s hs d hd'
    obtain ⟨r, hres, _, hm, ht⟩ := calculateTranche_fresh s hs
    simp only [exportData, hres, Option.some.injEq] at hd'
    subst hd'
    exact ⟨hm, ht⟩
  cases hr with
  | init => simp [exportData, initialState] at hd
  | effect h => exact key _ hg doc hd
  | edit e h => exact key _ hg doc hd

theorem exportData_consistent_witness :
    ∃ doc : ExportDoc, exportData (calculateTranche initialState) "2025-01-01T00:00:00.000Z"
        = some doc ∧
      doc.singleTranche.marketValue = doc.trancheSize * doc.btcPrice ∧
      doc.fullContract.totalContractValue = doc.fullContract.totalTarget * doc.btcPrice :=
  have hg : guardFails (calculateTranche initialState) = false :=
    (guardFails_calculateTranche initialState).trans
      (guardFails_fin initialState 117699 4000 rfl effectiveSize_initialState (by norm_num)
        (by norm_num))
  have hex : ∃ doc : ExportDoc,
      exportData (calculateTranche initialState) "2025-01-01T00:00:00.000Z" = some doc := by
    obtain ⟨r, hres, _⟩ := calculateTranche_fresh initialState hg
    simp [exportData, hres]
  hex.elim fun doc hd =>
    ⟨doc, hd, exportData_consistent (calculateTranche initialState) "2025-01-01T00:00:00.000Z"
      (Reachable.effect Reachable.init) hg doc hd⟩

end BTCTranche
